import Mathlib

/-!
A shallow embedding of the decode orchestrator in `tools/djxl_main.cc`
(the `djxl` command-line tool of libjxl), together with a verification of
the behavioural contracts stated in its specification.

Modelling conventions:
* C++ strings are modelled as Lean `String`s viewed through their character
  lists (`String.data`); all strings handled by the claims are ASCII, where
  `std::string::size()` agrees with the character count.
* Machine integers are modelled as `Nat`/`Int`; the `uint32_t` conversion of
  a C++ `int` is taken modulo `2 ^ 32`.
* Floating-point channel values `n * (1.0f / 255)` are modelled exactly as
  rationals `n * (1 / 255) : ℚ`; float rounding is immaterial to the claims.
* Calls into external collaborators (the JXL decode engine, the raster
  encoders, the file system) are modelled as oracles: functions supplied as
  parameters that state whether each external call succeeds and what shape
  its result has.  The control flow of `main` around those calls is embedded
  faithfully.
-/

namespace Djxl

/-! ## Character and hex-digit utilities (C `isspace`, hex digits, `std::stoi`)

`ParseBackgroundColor` in the source calls `std::stoi(desc.substr(1), nullptr,
16)`.  `std::stoi` with base 16 follows `strtol`: skip leading whitespace,
accept an optional sign, accept an optional `0x`/`0X` prefix (only when a hex
digit follows), then convert the longest run of hexadecimal digits; if no
conversion can be performed it throws `std::invalid_argument`, which
`djxl_main.cc` never catches (the process aborts). -/

/-- C `isspace` in the default locale. -/
def isSpaceChar (c : Char) : Bool :=
  c = ' ' ∨ c = '\t' ∨ c = '\n' ∨ c = '\x0b' ∨ c = '\x0c' ∨ c = '\r'

/-- Hexadecimal digit recognizer (both cases), as `strtol` base 16 accepts. -/
def isHexDigitChar (c : Char) : Bool :=
  ('0' ≤ c ∧ c ≤ '9') ∨ ('a' ≤ c ∧ c ≤ 'f') ∨ ('A' ≤ c ∧ c ≤ 'F')

/-- Numeric value of a hexadecimal digit. -/
def hexVal (c : Char) : Nat :=
  if '0' ≤ c ∧ c ≤ '9' then c.toNat - 48
  else if 'a' ≤ c ∧ c ≤ 'f' then c.toNat - 87
  else c.toNat - 55

/-- Value of a list of hexadecimal digits, most significant first. -/
def hexListVal (l : List Char) : Nat :=
  l.foldl (fun a c => 16 * a + hexVal c) 0

/-- `strtol` base-16 prefix handling: a leading `0x`/`0X` is consumed only
when a hexadecimal digit follows it. -/
def stripHexPrefix (l : List Char) : List Char :=
  match l with
  | a :: c :: d :: rest =>
      if a = '0' ∧ (c = 'x' ∨ c = 'X') ∧ isHexDigitChar d then d :: rest
      else a :: c :: d :: rest
  | _ => l

/-- Conversion of a digit sequence after whitespace/sign stripping: the
longest initial run of hex digits, `none` when that run is empty (the
"no conversion" case in which `std::stoi` throws). -/
def stoi16Core (sign : Int) (l : List Char) : Option Int :=
  let l2 := stripHexPrefix l
  let run := l2.takeWhile isHexDigitChar
  if run.isEmpty then none else some (sign * (hexListVal run : Int))

/-- `std::stoi(s, nullptr, 16)` on the character list of `s`: skip leading
whitespace, optional sign, then `stoi16Core`.  (`int` overflow cannot occur
on the 6-character inputs reachable from `ParseBackgroundColor`.) -/
def stoi16 (l : List Char) : Option Int :=
  match l.dropWhile isSpaceChar with
  | [] => stoi16Core 1 []
  | c :: r =>
      if c = '+' then stoi16Core 1 r
      else if c = '-' then stoi16Core (-1) r
      else stoi16Core 1 (c :: r)

/-! ## ParseBackgroundColor (djxl_main.cc lines 333-351) -/

/-- Observable result of `ParseBackgroundColor`: `ok r g b` models `return
true` with `background[0..2] = (r, g, b)`; `invalid` models `return false`;
`crash` models the uncaught `std::invalid_argument` escaping from
`std::stoi` (process abort). -/
inductive ParseResult where
  | ok (r g b : ℚ)
  | invalid
  | crash
deriving DecidableEq

/-- `n * (1.0f / 255)`, modelled exactly over `ℚ`. -/
def channelColor (n : Nat) : ℚ := (n : ℚ) * (1 / 255)

/-- Shallow embedding of `ParseBackgroundColor` (djxl_main.cc:333-351).
The source checks `background_desc.size() != 7 || background_desc[0] != '#'`
and otherwise converts `background_desc.substr(1)` with `std::stoi` base 16,
assigns it to a `uint32_t`, and extracts the three bytes. -/
def ParseBackgroundColor (s : String) : ParseResult :=
  if s = "black" then .ok 0 0 0
  else if s = "white" then .ok 1 1 1
  else if s.data.length ≠ 7 ∨ s.data.head? ≠ some '#' then .invalid
  else
    match stoi16 (s.data.drop 1) with
    | none => .crash
    | some v =>
        let color : Nat := (v % (2 : Int) ^ 32).toNat
        .ok (channelColor ((color >>> 16) &&& 255))
            (channelColor ((color >>> 8) &&& 255))
            (channelColor (color &&& 255))

/-- Decimal value of a digit string (left inverse of decimal printing; used
to prove the zero-padded prints injective). -/
def decVal (l : List Char) : Nat :=
  l.foldl (fun a c => 10 * a + (c.toNat - 48)) 0

/-! ## Decimal printing (`snprintf "%0*d"`) -/

/-- Decimal digit characters of `n`, most significant first, with `[]` for
`0`; fuel-based so that it evaluates by kernel reduction.  `decDigitsAux f n`
is the full digit string whenever `n ≤ f`. -/
def decDigitsAux : Nat → Nat → List Char
  | 0, _ => []
  | _ + 1, 0 => []
  | f + 1, n + 1 => decDigitsAux f ((n + 1) / 10) ++ [Nat.digitChar ((n + 1) % 10)]

/-- Decimal digit characters of `n`, most significant first (`[]` for `0`). -/
def decDigits (n : Nat) : List Char := decDigitsAux n n

/-- `snprintf` `"%0*d"` with width `w` on a non-negative value: the decimal
digits of `n`, left-padded with `'0'` to width `w`.  (For `n = 0` and
`w ≥ 1` this is `w` zeros, matching `printf`, which prints at least one
digit; `Filename` always uses widths `≥ 1`.) -/
def zeroPad (w n : Nat) : List Char :=
  List.replicate (w - (decDigits n).length) '0' ++ decDigits n

/-- `floor (log10 n)` for `n ≥ 1`, fuel-based. -/
def log10Aux : Nat → Nat → Nat
  | 0, _ => 0
  | f + 1, n => if n < 10 then 0 else log10Aux f (n / 10) + 1

/-- `floor (log10 n)` (`0` for `n ≤ 1`). -/
def floorLog10 (n : Nat) : Nat := log10Aux n n

/-- The `digits` lambda of `Filename` (djxl_main.cc:290):
`1 + (int)std::log10(n)`. -/
def digitsCount (n : Nat) : Nat := 1 + floorLog10 n

/-! ## Filename (djxl_main.cc lines 286-309) -/

/-- Frame suffix appended by `Filename` when `num_frames > 1`:
`snprintf(buf, "-%0*d", digits(num_frames), frame_index)`. -/
def frameSuffix (frame_index num_frames : Nat) : List Char :=
  if 1 < num_frames then '-' :: zeroPad (digitsCount num_frames) frame_index
  else []

/-- Extra-channel suffix appended by `Filename` when `num_layers > 1` and
`layer_index > 0`: `snprintf(buf, "-ec%0*d", digits(num_layers),
layer_index)`. -/
def layerSuffix (layer_index num_layers : Nat) : List Char :=
  if 1 < num_layers ∧ 0 < layer_index then
    '-' :: 'e' :: 'c' :: zeroPad (digitsCount num_layers) layer_index
  else []

/-- Extension part appended at the end of `Filename` (djxl_main.cc:303-307). -/
def extSuffix (extension : String) (layer_index num_layers num_frames : Nat) :
    List Char :=
  if extension = ".ppm" ∧ 0 < layer_index then ".pgm".data
  else if 1 < num_frames ∨ (1 < num_layers ∧ 0 < layer_index) then extension.data
  else []

/-- Shallow embedding of `Filename` (djxl_main.cc:286-309). -/
def Filename (filename extension : String)
    (layer_index frame_index num_layers num_frames : Nat) : String :=
  if filename = "-" then "-"
  else
    String.mk (filename.data ++ frameSuffix frame_index num_frames ++
      layerSuffix layer_index num_layers ++
      extSuffix extension layer_index num_layers num_frames)

/-! ## Pixel formats (jxl/types.h) and AddFormatsWithAlphaChannel
(djxl_main.cc lines 311-331) -/

/-- `JxlDataType` (jxl/types.h). -/
inductive JxlDataType where
  | float
  | uint8
  | uint16
  | float16
deriving DecidableEq

/-- `JxlEndianness` (jxl/types.h). -/
inductive JxlEndianness where
  | nativeEndian
  | littleEndian
  | bigEndian
deriving DecidableEq

/-- `JxlPixelFormat` (jxl/types.h): the four fields compared by
`AddFormatsWithAlphaChannel`. -/
structure JxlPixelFormat where
  num_channels : Nat
  data_type : JxlDataType
  endianness : JxlEndianness
  align : Nat
deriving DecidableEq

/-- The `add_format` lambda (djxl_main.cc:312-322): skip the push when a
format with the same four fields is already in the vector. -/
def addFormat (formats : List JxlPixelFormat) (format : JxlPixelFormat) :
    List JxlPixelFormat :=
  if formats.any fun f =>
      f.num_channels = format.num_channels ∧ f.data_type = format.data_type ∧
      f.endianness = format.endianness ∧ f.align = format.align
  then formats
  else formats ++ [format]

/-- The synthesized variant `++format.num_channels` with all other fields
unchanged (djxl_main.cc:325-327). -/
def succAlphaFormat (f : JxlPixelFormat) : JxlPixelFormat :=
  ⟨f.num_channels + 1, f.data_type, f.endianness, f.align⟩

/-- One iteration of the `AddFormatsWithAlphaChannel` loop body
(djxl_main.cc:324-330), acting on the growing vector `acc` with the original
entry `format`. -/
def alphaFoldStep (acc : List JxlPixelFormat) (format : JxlPixelFormat) :
    List JxlPixelFormat :=
  if format.num_channels = 1 ∨ format.num_channels = 3 then
    addFormat acc (succAlphaFormat format)
  else acc

/-- Shallow embedding of `AddFormatsWithAlphaChannel` (djxl_main.cc:311-331).
The C++ loop iterates `i` over the indices of the original vector (its size
is captured in `num_formats` before any push), reading the original entries,
while `add_format` pushes onto (and tests membership in) the growing
vector; this is a left fold over the original list with the original list as
the initial accumulator. -/
def AddFormatsWithAlphaChannel (formats : List JxlPixelFormat) :
    List JxlPixelFormat :=
  formats.foldl alphaFoldStep formats

/-- The fixed float format list built when no output file will be written
(djxl_main.cc:558-566): channel counts `{1,2,3,4}` crossed with
`{JXL_BIG_ENDIAN, JXL_LITTLE_ENDIAN}`, `JXL_TYPE_FLOAT`, alignment 0, in
source loop order. -/
def defaultFloatFormats : List JxlPixelFormat :=
  ([1, 2, 3, 4] : List Nat).flatMap fun nc =>
    [JxlEndianness.bigEndian, JxlEndianness.littleEndian].map fun e =>
      ⟨nc, JxlDataType.float, e, 0⟩

/-! ## The decode orchestrator (`main`, djxl_main.cc lines 415-641)

We embed the control flow of `main` from the point where the effective
decode path is selected (line 502).  Everything the externals decide —
whether each decode call succeeds, whether the byte buffer is empty, whether
an encoder exists for the extension, the shape of the encoded image, whether
each file write succeeds — is an `Oracles` value.  The run produces the
ordered trace of observable actions plus the process exit status
(`true` = `EXIT_SUCCESS`).  Parameter plumbing that does not influence
control flow (color-space forcing for EXR, bit-depth defaults for PNM,
thread counts, the decode parameters handed to the engine) is absorbed into
the oracles. -/

/-- `jxl::extras::Codec` (lib/extras/dec/decode.h), as far as `main`
inspects it. -/
inductive Codec where
  | kUnknown
  | kJPG
  | kPNM
  | kEXR
  | kOther
deriving DecidableEq

/-- Observable actions of one `djxl` invocation. -/
inductive Event where
  /-- one call to `DecompressJxlReconstructJPEG` -/
  | reconstructCall
  /-- one `stats.NotifyElapsed` sample (recorded only by a successful call) -/
  | statSample
  /-- the non-fatal warning "could not decode losslessly to JPEG. Retrying
  with --pixels_to_jpeg..." -/
  | warnFallback
  /-- one call to `DecompressJxlToPackedPixelFile` -/
  | pixelDecodeCall
  /-- the warning "Invalid background color" -/
  | warnInvalidBackground
  /-- one call to `AlphaBlend` -/
  | alphaBlendCall
  /-- one call to `encoder->Encode` -/
  | encodeCall
  /-- one `WriteFile` of a main output bitstream to the given path -/
  | writeOutput (fn : String)
  /-- one `WriteFile` performed by `WriteOptionalOutput` for the given path -/
  | writeOptional (fn : String)
  /-- the process aborting on an exception escaping `main` -/
  | abortException
deriving DecidableEq

/-- Configuration state of `main` at line 502, after flag parsing and codec
detection.  `detectedCodec`/`detectedExtension` are what
`jxl::extras::CodecFromPath` (an external collaborator) reports for the
output filename; they are consulted only when an output file will be
written. -/
structure MainConfig where
  /-- `args.file_out` (`none` = not passed) -/
  fileOut : Option String
  /-- `args.disable_output` -/
  disableOutput : Bool
  /-- codec reported by `CodecFromPath` for the output path -/
  detectedCodec : Codec
  /-- the extension in effect after lines 471-477 -/
  extension : String
  /-- `jxl::extras::GetJPEGEncoder() != nullptr`, i.e. the `--pixels_to_jpeg`
  and `--jpeg_quality` options were registered (`opt_jpeg_quality_id >= 0`) -/
  jpegEncoderAvailable : Bool
  /-- `args.pixels_to_jpeg` -/
  pixelsToJpeg : Bool
  /-- `cmdline.GetOption(args.opt_jpeg_quality_id)->matched()` -/
  jpegQualityMatched : Bool
  /-- `args.num_reps` -/
  numReps : Nat
  /-- `args.alpha_blend` -/
  alphaBlend : Bool
  /-- `args.background_spec` -/
  backgroundSpec : String
  /-- `args.output_extra_channels` -/
  outputExtraChannels : Bool
  /-- `args.output_frames` -/
  outputFrames : Bool
  /-- `args.coalescing` -/
  coalescing : Bool
  /-- `args.quiet` -/
  quiet : Bool
  /-- `args.preview_out` -/
  previewOut : String
  /-- `args.icc_out` -/
  iccOut : String
  /-- `args.orig_icc_out` -/
  origIccOut : String
  /-- `args.metadata_out` -/
  metadataOut : String

/-- Behaviour of the external collaborators during one invocation. -/
structure Oracles where
  /-- reconstruct call `i`: (call succeeded, `bytes.empty()` after the call) -/
  recon : Nat → Bool × Bool
  /-- pixel-decode call `i` succeeded -/
  pix : Nat → Bool
  /-- `Encoder::FromExtension(extension) != nullptr` -/
  encoderFound : Bool
  /-- the declared `encoder->AcceptedFormats()` -/
  encoderFormats : List JxlPixelFormat
  /-- `AlphaBlend(&ppf, background)` succeeded -/
  alphaBlendOk : Bool
  /-- `encoder->Encode(...)` succeeded -/
  encodeOk : Bool
  /-- `encoded_image.bitstreams.size()` -/
  numBitstreams : Nat
  /-- `encoded_image.extra_channel_bitstreams.size()` -/
  numExtraGroups : Nat
  /-- `WriteFile(fn, ...)` succeeded -/
  writeOk : String → Bool
  /-- `encoded_image.preview_bitstream` is non-empty -/
  previewNonempty : Bool
  /-- `ppf.icc` is non-empty -/
  iccNonempty : Bool
  /-- `ppf.orig_icc` is non-empty -/
  origIccNonempty : Bool
  /-- `encoded_image.metadata` is non-empty -/
  metadataNonempty : Bool

/-- `filename_out` as set at djxl_main.cc:473-474: the output path when an
output file will actually be written, `""` otherwise. -/
def filenameOut (cfg : MainConfig) : String :=
  match cfg.fileOut with
  | some s => if cfg.disableOutput then "" else s
  | none => ""

/-- The codec in effect at line 502: `CodecFromPath` runs only when
`args.file_out && !args.disable_output`; otherwise `codec` keeps its
initializer `Codec::kUnknown`. -/
def effectiveCodec (cfg : MainConfig) : Codec :=
  match cfg.fileOut with
  | some _ => if cfg.disableOutput then .kUnknown else cfg.detectedCodec
  | none => .kUnknown

/-- `decode_to_pixels` as computed before any decode attempt
(djxl_main.cc:502-507). -/
def initialDecodeToPixels (cfg : MainConfig) : Bool :=
  let d := effectiveCodec cfg ≠ Codec.kJPG
  if cfg.jpegEncoderAvailable ∧ (cfg.pixelsToJpeg ∨ cfg.jpegQualityMatched)
  then true else d

/-- Outcome of the reconstruct loop (djxl_main.cc:512-526). -/
inductive ReconOutcome where
  /-- all `num_reps` iterations ran; carries `bytes.empty()` at loop exit -/
  | done (bytesEmpty : Bool)
  /-- a call failed with an empty buffer: `decode_to_pixels = true; break` -/
  | fallback
  /-- a call failed with a non-empty buffer: `return EXIT_FAILURE` -/
  | fatal
deriving DecidableEq

/-- The reconstruct loop (djxl_main.cc:512-526): `reps` iterations remain,
the next call index is `i`, and `bytesEmpty` is the current `bytes.empty()`
(initially `true`).  A successful call records a timing sample inside
`DecompressJxlReconstructJPEG`; a failed call records none. -/
def reconLoop (recon : Nat → Bool × Bool) :
    Nat → Nat → Bool → List Event × ReconOutcome
  | 0, _, bytesEmpty => ([], .done bytesEmpty)
  | reps + 1, i, _ =>
      if (recon i).1 then
        let r := reconLoop recon reps (i + 1) (recon i).2
        (Event.reconstructCall :: Event.statSample :: r.1, r.2)
      else if (recon i).2 then ([Event.reconstructCall], .fallback)
      else ([Event.reconstructCall], .fatal)

/-- The pixel-decode loop (djxl_main.cc:569-576): any failure is fatal. -/
def pixelLoop (pix : Nat → Bool) : Nat → Nat → List Event × Bool
  | 0, _ => ([], true)
  | reps + 1, i =>
      if pix i then
        let r := pixelLoop pix reps (i + 1)
        (Event.pixelDecodeCall :: Event.statSample :: r.1, r.2)
      else ([Event.pixelDecodeCall], false)

/-- The accepted-format list handed to `DecompressJxlToPackedPixelFile`
(djxl_main.cc:536-566): the encoder's formats (with alpha variants when
`--alpha_blend` was passed) when an output file is written, the fixed float
set otherwise. -/
def acceptedFormatsFor (cfg : MainConfig) (encoderFormats : List JxlPixelFormat) :
    List JxlPixelFormat :=
  if filenameOut cfg = "" then defaultFloatFormats
  else if cfg.alphaBlend then AddFormatsWithAlphaChannel encoderFormats
  else encoderFormats

/-- The per-(layer, frame) fan-out write loop (djxl_main.cc:613-626):
write each path in order, aborting on the first failure. -/
def writeLoop (writeOk : String → Bool) : List String → List Event × Bool
  | [] => ([], true)
  | fn :: rest =>
      if writeOk fn then
        let r := writeLoop writeOk rest
        (Event.writeOutput fn :: r.1, r.2)
      else ([Event.writeOutput fn], false)

/-- `WriteOptionalOutput` (djxl_main.cc:278-284): succeed without writing
when the configured path or the byte buffer is empty. -/
def optionalWrite (writeOk : String → Bool) (fn : String) (bytesNonempty : Bool) :
    List Event × Bool :=
  if fn = "" ∨ bytesNonempty = false then ([], true)
  else ([Event.writeOptional fn], writeOk fn)

/-- The four short-circuited `WriteOptionalOutput` calls
(djxl_main.cc:627-633). -/
def optionalStage (cfg : MainConfig) (or : Oracles) : List Event × Bool :=
  let p := optionalWrite or.writeOk cfg.previewOut or.previewNonempty
  if p.2 = false then (p.1, false)
  else
    let i := optionalWrite or.writeOk cfg.iccOut or.iccNonempty
    if i.2 = false then (p.1 ++ i.1, false)
    else
      let o := optionalWrite or.writeOk cfg.origIccOut or.origIccNonempty
      if o.2 = false then (p.1 ++ i.1 ++ o.1, false)
      else
        let m := optionalWrite or.writeOk cfg.metadataOut or.metadataNonempty
        (p.1 ++ i.1 ++ o.1 ++ m.1, m.2)

/-- The alpha-blend stage inside `if (encoder)` (djxl_main.cc:584-594): parse
the background spec — a clean parse failure only warns, an exception aborts —
then call `AlphaBlend`, whose failure is fatal. -/
def alphaStage (cfg : MainConfig) (or : Oracles) : List Event × Bool :=
  if cfg.alphaBlend then
    match ParseBackgroundColor cfg.backgroundSpec with
    | .crash => ([Event.abortException], false)
    | .invalid => ([Event.warnInvalidBackground, Event.alphaBlendCall], or.alphaBlendOk)
    | .ok _ _ _ => ([Event.alphaBlendCall], or.alphaBlendOk)
  else ([], true)

/-- The output paths of the per-(layer, frame) fan-out (djxl_main.cc:607-619):
`nlayers` and `nframes` as computed from the flags and the encoded image,
and one `Filename`-derived path per grid point, outer loop over layers. -/
def encOutputPaths (cfg : MainConfig) (or : Oracles) : List String :=
  let nlayers := if cfg.outputExtraChannels then 1 + or.numExtraGroups else 1
  let nframes :=
    if cfg.outputFrames ∨ cfg.coalescing = false then or.numBitstreams else 1
  (List.range nlayers).flatMap fun i =>
    (List.range nframes).map fun j =>
      Filename (filenameOut cfg) cfg.extension i j nlayers nframes

/-- The `if (encoder)` block (djxl_main.cc:583-634): alpha blending, the
encode call, the (layer, frame) fan-out writes, and the optional side
outputs.  When no output file is written (`encoder` is null) it is skipped
with success. -/
def encoderStage (cfg : MainConfig) (or : Oracles) : List Event × Bool :=
  if filenameOut cfg = "" then ([], true)
  else
    let a := alphaStage cfg or
    if a.2 = false then (a.1, false)
    else
      let evs := a.1 ++ [Event.encodeCall]
      if or.encodeOk = false then (evs, false)
      else
        let w := writeLoop or.writeOk (encOutputPaths cfg or)
        if w.2 = false then (evs ++ w.1, false)
        else
          let os := optionalStage cfg or
          (evs ++ w.1 ++ os.1, os.2)

/-- The `if (decode_to_pixels)` block (djxl_main.cc:535-635): look up an
encoder for the extension when a file will be written (a missing encoder is
fatal before any decode call), run the decode loop, then the encoder
stage. -/
def pixelPath (cfg : MainConfig) (or : Oracles) : List Event × Bool :=
  if filenameOut cfg ≠ "" ∧ or.encoderFound = false then ([], false)
  else
    let l := pixelLoop or.pix cfg.numReps 0
    if l.2 = false then (l.1, false)
    else
      let e := encoderStage cfg or
      (l.1 ++ e.1, e.2)

/-- The decode section of `main` (djxl_main.cc:502-641): path selection, the
reconstruct loop with its fatal/fallback outcomes and the JPEG output write,
and the pixel path.  Returns the event trace and whether the process exits
with `EXIT_SUCCESS`. -/
def runMain (cfg : MainConfig) (or : Oracles) : List Event × Bool :=
  if initialDecodeToPixels cfg then pixelPath cfg or
  else
    let r := reconLoop or.recon cfg.numReps 0 true
    match r.2 with
    | .fatal => (r.1, false)
    | .fallback =>
        let evs := if cfg.quiet then r.1 else r.1 ++ [Event.warnFallback]
        let p := pixelPath cfg or
        (evs ++ p.1, p.2)
    | .done bytesEmpty =>
        if bytesEmpty then (r.1, true)
        else if filenameOut cfg ≠ "" then
          (r.1 ++ [Event.writeOutput (filenameOut cfg)],
           or.writeOk (filenameOut cfg))
        else (r.1, true)

/-! ## Claim-side (specification) definitions

These definitions follow the words of the specification claims, to be
compared with the embeddings above. -/

/-- The set of background specs the specification claims are accepted:
the literals `black` and `white`, or a 7-character `#RRGGBB` string of six
hexadecimal digits. -/
def claimAcceptedSpec (s : String) : Bool :=
  s = "black" ∨ s = "white" ∨
    (s.data.length = 7 ∧ s.data.head? = some '#' ∧
      (s.data.drop 1).all isHexDigitChar)

/-- The value of the maximal hexadecimal prefix of a digit string, as the
claim about lenient hex parsing words it. -/
def maxHexPrefixVal (l : List Char) : Nat :=
  hexListVal (l.takeWhile isHexDigitChar)

/-- The output path as described clause by clause by the Filename claim:
a frame suffix `-<frameIndex>` zero-padded to `1 + floor(log10 frameCount)`
digits when `frameCount > 1`; an extra-channel suffix `-ec<layerIndex>`
zero-padded to `1 + floor(log10 layerCount)` digits when `layerCount > 1`
and `layerIndex > 0`; the extension re-appended exactly when some suffix was
added, except that extension `.ppm` with `layerIndex > 0` appends `.pgm`
instead. -/
def framePartClaim (fi fc : Nat) : String :=
  if 1 < fc then "-" ++ String.mk (zeroPad (1 + floorLog10 fc) fi) else ""

def layerPartClaim (li lc : Nat) : String :=
  if 1 < lc ∧ 0 < li then "-ec" ++ String.mk (zeroPad (1 + floorLog10 lc) li)
  else ""

def extPartClaim (ext : String) (li fi lc fc : Nat) : String :=
  if ext = ".ppm" ∧ 0 < li then ".pgm"
  else if framePartClaim fi fc ≠ "" ∨ layerPartClaim li lc ≠ "" then ext
  else ""

def FilenameClaim (base ext : String) (li fi lc fc : Nat) : String :=
  base ++ framePartClaim fi fc ++ layerPartClaim li lc ++
    extPartClaim ext li fi lc fc

/-- Recognizer for main-output write events (the per-(layer, frame) fan-out
writes, as opposed to the optional side outputs). -/
def isMainWrite (e : Event) : Bool :=
  match e with
  | .writeOutput _ => true
  | _ => false

/-! ## Concrete configurations and oracles used by the witnesses -/

/-- A configuration requesting direct JPEG output (reconstruct path):
`djxl in.jxl out.jpg` with default flags, detected codec JPEG. -/
def cfgJpegOut : MainConfig :=
  ⟨some "out.jpg", false, Codec.kJPG, ".jpg", true, false, false,
   1, false, "white", false, false, true, false, "", "", "", ""⟩

/-- A configuration requesting PNG output (pixel-decode path):
`djxl in.jxl out.png` with default flags. -/
def cfgPngOut : MainConfig :=
  ⟨some "out.png", false, Codec.kOther, ".png", true, false, false,
   1, false, "white", false, false, true, false, "", "", "", ""⟩

/-- `cfgPngOut` with `--alpha_blend` and a given `--background` spec. -/
def cfgAlphaBlend (spec : String) : MainConfig :=
  ⟨some "out.png", false, Codec.kOther, ".png", true, false, false,
   1, true, spec, false, false, true, false, "", "", "", ""⟩

/-- A benchmarking configuration: `--disable_output`, three repetitions. -/
def cfgBench : MainConfig :=
  ⟨some "out.png", true, Codec.kOther, ".png", true, false, false,
   3, false, "white", false, false, true, false, "", "", "", ""⟩

/-- Oracles under which every external call succeeds, with a one-frame,
no-extra-channel encoded image. -/
def oracleAllOk : Oracles :=
  ⟨fun _ => (true, false), fun _ => true, true, [⟨3, JxlDataType.uint8, JxlEndianness.nativeEndian, 0⟩],
   true, true, 1, 0, fun _ => true, false, false, false, false⟩

/-- Oracles whose reconstruct call always fails producing no bytes, and
whose pixel path succeeds. -/
def oracleReconFailsEmpty : Oracles :=
  ⟨fun _ => (false, true), fun _ => true, true, [⟨3, JxlDataType.uint8, JxlEndianness.nativeEndian, 0⟩],
   true, true, 1, 0, fun _ => true, false, false, false, false⟩

/-- Oracles whose first reconstruct call succeeds (leaving bytes in the
buffer) and whose second call fails with the bytes still present. -/
def oracleReconFailsAfterBytes : Oracles :=
  ⟨fun i => if i = 0 then (true, false) else (false, false), fun _ => true,
   true, [⟨3, JxlDataType.uint8, JxlEndianness.nativeEndian, 0⟩],
   true, true, 1, 0, fun _ => true, false, false, false, false⟩

/-! # Verification

## Character and hex-digit lemmas -/

theorem char_le_iff_toNat {a b : Char} : a ≤ b ↔ a.toNat ≤ b.toNat := by
  simp [Char.le_def, UInt32.le_def, Fin.le_def, Char.toNat, UInt32.toNat,
    BitVec.le_def]

theorem hexRange_toNat {c : Char} :
    (('0' ≤ c ∧ c ≤ '9') ↔ 48 ≤ c.toNat ∧ c.toNat ≤ 57) ∧
    (('a' ≤ c ∧ c ≤ 'f') ↔ 97 ≤ c.toNat ∧ c.toNat ≤ 102) ∧
    (('A' ≤ c ∧ c ≤ 'F') ↔ 65 ≤ c.toNat ∧ c.toNat ≤ 70) := by
  refine ⟨?_, ?_, ?_⟩ <;> rw [char_le_iff_toNat, char_le_iff_toNat] <;>
    exact Iff.rfl

theorem isHexDigitChar_iff {c : Char} :
    isHexDigitChar c = true ↔
      (48 ≤ c.toNat ∧ c.toNat ≤ 57) ∨ (97 ≤ c.toNat ∧ c.toNat ≤ 102) ∨
        (65 ≤ c.toNat ∧ c.toNat ≤ 70) := by
  simp only [isHexDigitChar, decide_eq_true_eq]
  rw [hexRange_toNat.1, hexRange_toNat.2.1, hexRange_toNat.2.2]

theorem hexVal_lt {c : Char} (h : isHexDigitChar c = true) : hexVal c < 16 := by
  rw [isHexDigitChar_iff] at h
  unfold hexVal
  by_cases h1 : '0' ≤ c ∧ c ≤ '9'
  · rw [if_pos h1]
    have h1' := hexRange_toNat.1.mp h1
    omega
  · rw [if_neg h1]
    by_cases h2 : 'a' ≤ c ∧ c ≤ 'f'
    · rw [if_pos h2]
      have h2' := hexRange_toNat.2.1.mp h2
      omega
    · rw [if_neg h2]
      rw [show (('0' ≤ c ∧ c ≤ '9') ↔ 48 ≤ c.toNat ∧ c.toNat ≤ 57) from
        hexRange_toNat.1] at h1
      rw [show (('a' ≤ c ∧ c ≤ 'f') ↔ 97 ≤ c.toNat ∧ c.toNat ≤ 102) from
        hexRange_toNat.2.1] at h2
      omega

theorem hex_not_space {c : Char} (h : isHexDigitChar c = true) :
    isSpaceChar c = false := by
  by_contra hs
  rw [Bool.not_eq_false, isSpaceChar, decide_eq_true_eq] at hs
  rcases hs with rfl | rfl | rfl | rfl | rfl | rfl <;> exact absurd h (by decide)

theorem hex_ne_plus {c : Char} (h : isHexDigitChar c = true) : c ≠ '+' := by
  rintro rfl; exact absurd h (by decide)

theorem hex_ne_minus {c : Char} (h : isHexDigitChar c = true) : c ≠ '-' := by
  rintro rfl; exact absurd h (by decide)

theorem hex_ne_x {c : Char} (h : isHexDigitChar c = true) : c ≠ 'x' := by
  rintro rfl; exact absurd h (by decide)

theorem hex_ne_X {c : Char} (h : isHexDigitChar c = true) : c ≠ 'X' := by
  rintro rfl; exact absurd h (by decide)

theorem hexListVal_aux_lt {l : List Char} (hl : ∀ c ∈ l, isHexDigitChar c = true)
    (a : Nat) :
    l.foldl (fun a c => 16 * a + hexVal c) a < (a + 1) * 16 ^ l.length := by
  induction l generalizing a with
  | nil => simp
  | cons c l ih =>
      have hc : hexVal c < 16 := hexVal_lt (hl c (by simp))
      have h2 := ih (fun d hd => hl d (by simp [hd])) (16 * a + hexVal c)
      calc (c :: l).foldl (fun a c => 16 * a + hexVal c) a
          = l.foldl (fun a c => 16 * a + hexVal c) (16 * a + hexVal c) := by
            simp [List.foldl_cons]
        _ < (16 * a + hexVal c + 1) * 16 ^ l.length := h2
        _ ≤ ((a + 1) * 16) * 16 ^ l.length := by
            have : 16 * a + hexVal c + 1 ≤ (a + 1) * 16 := by omega
            exact Nat.mul_le_mul_right _ this
        _ = (a + 1) * 16 ^ (c :: l).length := by
            rw [List.length_cons, pow_succ]; ring

theorem hexListVal_lt {l : List Char} (hl : ∀ c ∈ l, isHexDigitChar c = true) :
    hexListVal l < 16 ^ l.length := by
  simpa [hexListVal] using hexListVal_aux_lt hl 0

theorem stripHexPrefix_all_hex {l : List Char}
    (hl : ∀ c ∈ l, isHexDigitChar c = true) : stripHexPrefix l = l := by
  match l with
  | [] => rfl
  | [a] => rfl
  | [a, c] => rfl
  | a :: c :: d :: rest =>
      show (if a = '0' ∧ (c = 'x' ∨ c = 'X') ∧ isHexDigitChar d then d :: rest
            else a :: c :: d :: rest) = _
      rw [if_neg]
      rintro ⟨-, hc, -⟩
      have hhex : isHexDigitChar c = true := hl c (by simp)
      rcases hc with rfl | rfl
      · exact absurd hhex (by decide)
      · exact absurd hhex (by decide)

theorem stoi16_all_hex {l : List Char} (hne : l ≠ [])
    (hl : ∀ c ∈ l, isHexDigitChar c = true) :
    stoi16 l = some ((hexListVal l : Int)) := by
  match l with
  | c :: r =>
      have hc : isHexDigitChar c = true := hl c (by simp)
      have hdrop : (c :: r).dropWhile isSpaceChar = c :: r := by
        rw [List.dropWhile_cons]
        simp [hex_not_space hc]
      rw [stoi16, hdrop]
      show (if c = '+' then stoi16Core 1 r
            else if c = '-' then stoi16Core (-1) r
            else stoi16Core 1 (c :: r)) = _
      rw [if_neg (hex_ne_plus hc), if_neg (hex_ne_minus hc)]
      rw [stoi16Core, stripHexPrefix_all_hex hl,
        List.takeWhile_eq_self_iff.mpr hl]
      simp

/-! ## ParseBackgroundColor: claims C3 and C10 -/

theorem string_data_length_ne_black {s : String} (h : s.data.length = 7) :
    s ≠ "black" ∧ s ≠ "white" := by
  constructor <;> rintro rfl <;> exact absurd h (by decide)

theorem parseBackground_hex (s : String) (h7 : s.data.length = 7)
    (hh : s.data.head? = some '#')
    (hhex : ∀ c ∈ s.data.drop 1, isHexDigitChar c = true) :
    ParseBackgroundColor s =
      .ok (channelColor ((hexListVal (s.data.drop 1) >>> 16) &&& 255))
          (channelColor ((hexListVal (s.data.drop 1) >>> 8) &&& 255))
          (channelColor (hexListVal (s.data.drop 1) &&& 255)) := by
  obtain ⟨hnb, hnw⟩ := string_data_length_ne_black h7
  have hdlen : (s.data.drop 1).length = 6 := by
    rw [List.length_drop, h7]
  have hdne : s.data.drop 1 ≠ [] := by
    intro e; rw [e] at hdlen; exact absurd hdlen (by decide)
  have hlt : hexListVal (s.data.drop 1) < 16 ^ 6 := by
    have := hexListVal_lt hhex
    rwa [hdlen] at this
  have hmod : (((hexListVal (s.data.drop 1) : Int)) % (2 : Int) ^ 32).toNat =
      hexListVal (s.data.drop 1) := by
    rw [Int.emod_eq_of_lt (by positivity)
      (by exact_mod_cast lt_trans hlt (by norm_num))]
    exact Int.toNat_natCast _
  rw [ParseBackgroundColor, if_neg hnb, if_neg hnw,
    if_neg (by simp [h7, hh]), stoi16_all_hex hdne hhex]
  show ParseResult.ok
      (channelColor (((((hexListVal (s.data.drop 1) : Int)) % (2 : Int) ^ 32).toNat >>> 16) &&& 255))
      (channelColor (((((hexListVal (s.data.drop 1) : Int)) % (2 : Int) ^ 32).toNat >>> 8) &&& 255))
      (channelColor ((((hexListVal (s.data.drop 1) : Int)) % (2 : Int) ^ 32).toNat &&& 255)) = _
  rw [hmod]

/-- C3 (counterexample): the spec claims every background spec that is not
`black`, `white`, or a 7-character `#`-string of six hexadecimal digits
fails with `InvalidSpec`; but `"#ff008z"` is none of these and
`ParseBackgroundColor` still succeeds, deriving a color from the hex prefix
`ff008` and ignoring the trailing `z`. -/
theorem c3_counterexample :
    claimAcceptedSpec "#ff008z" = false ∧
      ParseBackgroundColor "#ff008z" =
        .ok (channelColor 15) (channelColor 240) (channelColor 8) ∧
      ParseBackgroundColor "#ff008z" ≠ .invalid := by
  refine ⟨by decide, rfl, ?_⟩
  intro h
  rw [show ParseBackgroundColor "#ff008z" =
    .ok (channelColor 15) (channelColor 240) (channelColor 8) from rfl] at h
  exact ParseResult.noConfusion h

/-- C3 (amended): `ParseBackgroundColor` maps `"black"` to `(0,0,0)`,
`"white"` to `(1,1,1)`, and any 7-character string `'#' ++ six hex digits`
to the three bytes of its hex value each multiplied by `1/255`; it returns
`InvalidSpec` (`false`) exactly for the specs that are not `"black"` or
`"white"` and have the wrong length or no leading `'#'` — trailing non-hex
characters after a parseable hex prefix are NOT rejected (see the
counterexample), and a 7-character `'#'`-spec with no parseable digit at all
aborts the process instead of failing cleanly. -/
theorem c3_parseBackground_amended :
    ParseBackgroundColor "black" = .ok 0 0 0 ∧
    ParseBackgroundColor "white" = .ok 1 1 1 ∧
    (∀ s : String, s.data.length = 7 → s.data.head? = some '#' →
      (∀ c ∈ s.data.drop 1, isHexDigitChar c = true) →
      ParseBackgroundColor s =
        .ok (channelColor ((hexListVal (s.data.drop 1) >>> 16) &&& 255))
            (channelColor ((hexListVal (s.data.drop 1) >>> 8) &&& 255))
            (channelColor (hexListVal (s.data.drop 1) &&& 255))) ∧
    (∀ s : String, s ≠ "black" → s ≠ "white" →
      (s.data.length ≠ 7 ∨ s.data.head? ≠ some '#') →
      ParseBackgroundColor s = .invalid) := by
  refine ⟨rfl, rfl, parseBackground_hex, ?_⟩
  intro s hnb hnw hbad
  rw [ParseBackgroundColor, if_neg hnb, if_neg hnw, if_pos hbad]

/-- C3 (witness): the amended theorem applied to `"#ff0080"` (the spec's own
example) and to the malformed spec `"blue"`. -/
theorem c3_parseBackground_amended_witness :
    ParseBackgroundColor "#ff0080" =
      .ok (channelColor ((hexListVal ("#ff0080".data.drop 1) >>> 16) &&& 255))
          (channelColor ((hexListVal ("#ff0080".data.drop 1) >>> 8) &&& 255))
          (channelColor (hexListVal ("#ff0080".data.drop 1) &&& 255)) ∧
    ParseBackgroundColor "blue" = .invalid :=
  ⟨c3_parseBackground_amended.2.2.1 "#ff0080" (by decide) (by decide) (by decide),
   c3_parseBackground_amended.2.2.2 "blue" (by decide) (by decide) (by decide)⟩

/-- C10 (counterexample): the spec claims that for every 7-character string
starting with `'#'` whose second character is a hex digit the color is
derived from the maximal hexadecimal prefix after `'#'`; but for
`"#0x00ff"` the maximal hex prefix of `"0x00ff"` is `"0"` (value 0), while
`std::stoi` with base 16 consumes the `0x` marker and yields `0x00ff`,
so the blue channel is `255/255`, not `0`. -/
theorem c10_counterexample :
    ParseBackgroundColor "#0x00ff" =
      .ok (channelColor 0) (channelColor 0) (channelColor 255) ∧
    maxHexPrefixVal ("#0x00ff".data.drop 1) = 0 ∧
    channelColor 255 ≠ channelColor 0 := by
  refine ⟨rfl, by decide, ?_⟩
  norm_num [channelColor]

/-- C10 (amended): `ParseBackgroundColor` validates only the length
(exactly 7) and the leading `'#'` of a hex spec, never the six digit
characters: for every 7-character string starting with `'#'` whose second
character is a hexadecimal digit it returns success, deriving the color
from `std::stoi` base-16 semantics — an optional `0x`/`0X` prefix is
consumed, then the maximal run of hexadecimal digits, then any trailing
non-hex characters are ignored. -/
theorem c10_parseBackground_lenient (c1 c2 c3 c4 c5 c6 : Char)
    (h : isHexDigitChar c1 = true) :
    ∃ v : Nat,
      stoi16 [c1, c2, c3, c4, c5, c6] = some ((v : Int)) ∧
      ParseBackgroundColor (String.mk ['#', c1, c2, c3, c4, c5, c6]) =
        .ok (channelColor ((v >>> 16) &&& 255))
            (channelColor ((v >>> 8) &&& 255))
            (channelColor (v &&& 255)) := by
  have hstoi : ∃ run : List Char, run ≠ [] ∧
      (∀ c ∈ run, isHexDigitChar c = true) ∧ run.length ≤ 6 ∧
      stoi16 [c1, c2, c3, c4, c5, c6] = some ((hexListVal run : Int)) := by
    have hhead : stoi16 [c1, c2, c3, c4, c5, c6] =
        stoi16Core 1 [c1, c2, c3, c4, c5, c6] := by
      rw [stoi16]
      rw [show List.dropWhile isSpaceChar [c1, c2, c3, c4, c5, c6] =
        [c1, c2, c3, c4, c5, c6] by
          rw [List.dropWhile_cons]; simp [hex_not_space h]]
      show (if c1 = '+' then _ else if c1 = '-' then _ else _) = _
      rw [if_neg (hex_ne_plus h), if_neg (hex_ne_minus h)]
    by_cases hpre : c1 = '0' ∧ (c2 = 'x' ∨ c2 = 'X') ∧ isHexDigitChar c3
    · have hstrip : stripHexPrefix [c1, c2, c3, c4, c5, c6] =
          c3 :: [c4, c5, c6] := by
        show (if c1 = '0' ∧ (c2 = 'x' ∨ c2 = 'X') ∧ isHexDigitChar c3
              then c3 :: [c4, c5, c6] else _) = _
        rw [if_pos hpre]
      refine ⟨c3 :: [c4, c5, c6].takeWhile isHexDigitChar, by simp, ?_, ?_, ?_⟩
      · intro c hc
        rcases List.mem_cons.mp hc with rfl | hc
        · exact hpre.2.2
        · exact List.mem_takeWhile_imp hc
      · have := (List.takeWhile_prefix (l := [c4, c5, c6])
          (p := isHexDigitChar)).length_le
        simp only [List.length_cons]
        simp at this
        omega
      · rw [hhead, stoi16Core, hstrip,
          List.takeWhile_cons_of_pos hpre.2.2]
        simp
    · have hstrip : stripHexPrefix [c1, c2, c3, c4, c5, c6] =
          [c1, c2, c3, c4, c5, c6] := by
        show (if c1 = '0' ∧ (c2 = 'x' ∨ c2 = 'X') ∧ isHexDigitChar c3
              then c3 :: [c4, c5, c6] else _) = _
        rw [if_neg hpre]
      refine ⟨c1 :: [c2, c3, c4, c5, c6].takeWhile isHexDigitChar, by simp,
        ?_, ?_, ?_⟩
      · intro c hc
        rcases List.mem_cons.mp hc with rfl | hc
        · exact h
        · exact List.mem_takeWhile_imp hc
      · have := (List.takeWhile_prefix (l := [c2, c3, c4, c5, c6])
          (p := isHexDigitChar)).length_le
        simp only [List.length_cons]
        simp at this
        omega
      · rw [hhead, stoi16Core, hstrip,
          List.takeWhile_cons_of_pos h]
        simp
  obtain ⟨run, hne, hhex, hlen, hval⟩ := hstoi
  refine ⟨hexListVal run, hval, ?_⟩
  have h7 : (String.mk ['#', c1, c2, c3, c4, c5, c6]).data.length = 7 := rfl
  obtain ⟨hnb, hnw⟩ := string_data_length_ne_black h7
  have hlt : hexListVal run < 16 ^ 6 :=
    lt_of_lt_of_le (hexListVal_lt hhex)
      (Nat.pow_le_pow_right (by norm_num) hlen)
  have hmod : (((hexListVal run : Int)) % (2 : Int) ^ 32).toNat =
      hexListVal run := by
    rw [Int.emod_eq_of_lt (by positivity)
      (by exact_mod_cast lt_trans hlt (by norm_num))]
    exact Int.toNat_natCast _
  rw [ParseBackgroundColor, if_neg hnb, if_neg hnw, if_neg (by simp)]
  rw [show (String.mk ['#', c1, c2, c3, c4, c5, c6]).data.drop 1 =
    [c1, c2, c3, c4, c5, c6] from rfl, hval]
  show ParseResult.ok
      (channelColor (((((hexListVal run : Int)) % (2 : Int) ^ 32).toNat >>> 16) &&& 255))
      (channelColor (((((hexListVal run : Int)) % (2 : Int) ^ 32).toNat >>> 8) &&& 255))
      (channelColor ((((hexListVal run : Int)) % (2 : Int) ^ 32).toNat &&& 255)) = _
  rw [hmod]

/-- C10 (witness): the lenient theorem applied to the digits of
`"#ff0080"`. -/
theorem c10_parseBackground_lenient_witness :
    ∃ v : Nat,
      stoi16 ['f', 'f', '0', '0', '8', '0'] = some ((v : Int)) ∧
      ParseBackgroundColor (String.mk ['#', 'f', 'f', '0', '0', '8', '0']) =
        .ok (channelColor ((v >>> 16) &&& 255))
            (channelColor ((v >>> 8) &&& 255))
            (channelColor (v &&& 255)) :=
  c10_parseBackground_lenient 'f' 'f' '0' '0' '8' '0' (by decide)

/-! ## Decimal printing lemmas -/

theorem digitChar_toNat {m : Nat} (h : m < 10) :
    (Nat.digitChar m).toNat - 48 = m := by
  interval_cases m <;> rfl

theorem decVal_append_digit (l : List Char) (c : Char) :
    decVal (l ++ [c]) = 10 * decVal l + (c.toNat - 48) := by
  simp [decVal, List.foldl_append]

theorem decVal_decDigitsAux {f n : Nat} (h : n ≤ f) :
    decVal (decDigitsAux f n) = n := by
  induction f generalizing n with
  | zero => interval_cases n; rfl
  | succ f ih =>
      match n with
      | 0 => rfl
      | n + 1 =>
          rw [decDigitsAux, decVal_append_digit,
            ih (by
              have : (n + 1) / 10 < n + 1 := Nat.div_lt_self (by omega) (by norm_num)
              omega),
            digitChar_toNat (Nat.mod_lt _ (by norm_num))]
          omega

theorem decVal_decDigits (n : Nat) : decVal (decDigits n) = n :=
  decVal_decDigitsAux le_rfl

theorem decVal_zeroPad (w n : Nat) : decVal (zeroPad w n) = n := by
  rw [zeroPad]
  have hz : ∀ k, List.foldl (fun a c => 10 * a + (c.toNat - 48)) 0
      (List.replicate k '0') = 0 := by
    intro k
    induction k with
    | zero => rfl
    | succ k ih => simpa [List.replicate_succ] using ih
  rw [decVal, List.foldl_append, hz]
  exact decVal_decDigits n

theorem zeroPad_inj {w n m : Nat} (h : zeroPad w n = zeroPad w m) : n = m := by
  have := congrArg decVal h
  rwa [decVal_zeroPad, decVal_zeroPad] at this

theorem decDigitsAux_length_le {f w n : Nat} (hf : n ≤ f) (hw : n < 10 ^ w) :
    (decDigitsAux f n).length ≤ w := by
  induction f generalizing n w with
  | zero => interval_cases n; simp [decDigitsAux]
  | succ f ih =>
      match n with
      | 0 => simp [decDigitsAux]
      | n + 1 =>
          match w with
          | 0 => omega
          | w + 1 =>
              rw [decDigitsAux, List.length_append]
              have hdiv : (n + 1) / 10 < 10 ^ w := by
                rw [Nat.div_lt_iff_lt_mul (by norm_num)]
                calc n + 1 < 10 ^ (w + 1) := hw
                  _ = 10 ^ w * 10 := by rw [pow_succ]
              have hfle : (n + 1) / 10 ≤ f := by
                have : (n + 1) / 10 < n + 1 := Nat.div_lt_self (by omega) (by norm_num)
                omega
              have := ih hfle hdiv
              simp only [List.length_cons, List.length_nil]
              omega

theorem zeroPad_length {w n : Nat} (h : n < 10 ^ w) :
    (zeroPad w n).length = w := by
  have hle : (decDigits n).length ≤ w := decDigitsAux_length_le le_rfl h
  rw [zeroPad, List.length_append, List.length_replicate]
  omega

theorem log10Aux_lt {f n : Nat} (h : n ≤ f) : n < 10 ^ (log10Aux f n + 1) := by
  induction f generalizing n with
  | zero =>
      interval_cases n
      norm_num [log10Aux]
  | succ f ih =>
      rw [log10Aux]
      by_cases h10 : n < 10
      · rw [if_pos h10]
        simpa using h10
      · rw [if_neg h10]
        have hle : n / 10 ≤ f := by
          have : n / 10 < n := Nat.div_lt_self (by omega) (by norm_num)
          omega
        have := ih hle
        have hdm := Nat.div_add_mod n 10
        have hm : n % 10 < 10 := Nat.mod_lt _ (by norm_num)
        calc n = 10 * (n / 10) + n % 10 := (Nat.div_add_mod n 10).symm
          _ < 10 * (n / 10) + 10 := by omega
          _ = 10 * (n / 10 + 1) := by ring
          _ ≤ 10 * 10 ^ (log10Aux f (n / 10) + 1) := by
              exact Nat.mul_le_mul_left _ (by omega)
          _ = 10 ^ (log10Aux f (n / 10) + 1 + 1) := by
              rw [pow_succ]; ring

theorem lt_pow_digitsCount (n : Nat) : n < 10 ^ digitsCount n := by
  rw [digitsCount, Nat.add_comm]
  exact log10Aux_lt le_rfl

theorem zeroPad_digitsCount_length {n c : Nat} (h : n < c) :
    (zeroPad (digitsCount c) n).length = digitsCount c :=
  zeroPad_length (lt_trans h (lt_pow_digitsCount c))

/-! ## Filename: claims C5 and C6 -/

theorem string_eq_of_data {s t : String} (h : s.data = t.data) : s = t := by
  cases s; cases t; simp_all

theorem digitsCount_pos (n : Nat) : 0 < digitsCount n := by
  rw [digitsCount]; omega

theorem extSuffix_of_pos {ext : String} {li li' lc fc : Nat} (h : 0 < li)
    (h' : 0 < li') :
    extSuffix ext li lc fc = extSuffix ext li' lc fc := by
  simp [extSuffix, h, h']

theorem layerPart_inj (ext : String) (lc fc : Nat) {li li' : Nat}
    (h1 : li < lc) (h2 : li' < lc)
    (heq : layerSuffix li lc ++ extSuffix ext li lc fc =
           layerSuffix li' lc ++ extSuffix ext li' lc fc) : li = li' := by
  by_cases hlc : 1 < lc
  · by_cases hli : 0 < li <;> by_cases hli' : 0 < li'
    · -- both extra-channel layers: cancel "-ec", the pads, the common tail
      rw [extSuffix_of_pos hli hli'] at heq
      rw [layerSuffix, if_pos ⟨hlc, hli⟩, layerSuffix, if_pos ⟨hlc, hli'⟩] at heq
      simp only [List.cons_append, List.cons.injEq, true_and] at heq
      exact zeroPad_inj (List.append_cancel_right heq)
    · -- li > 0 against li' = 0: impossible, the sides have different lengths
      exfalso
      rw [layerSuffix, if_pos ⟨hlc, hli⟩, layerSuffix, if_neg (by omega)] at heq
      have hRw : extSuffix ext li' lc fc = if 1 < fc then ext.data else [] := by
        rw [extSuffix, if_neg (fun hc => hli' hc.2)]
        by_cases hfc : 1 < fc
        · rw [if_pos (Or.inl hfc), if_pos hfc]
        · rw [if_neg ?_, if_neg hfc]
          rintro (hf | ⟨-, hl⟩)
          · exact hfc hf
          · exact hli' hl
      have hLw : extSuffix ext li lc fc =
          if ext = ".ppm" then ".pgm".data else ext.data := by
        rw [extSuffix]
        by_cases hppm : ext = ".ppm"
        · rw [if_pos ⟨hppm, hli⟩, if_pos hppm]
        · rw [if_neg (fun hc => hppm hc.1), if_pos (Or.inr ⟨hlc, hli⟩),
            if_neg hppm]
      rw [hRw, hLw] at heq
      have hw : (zeroPad (digitsCount lc) li).length = digitsCount lc :=
        zeroPad_digitsCount_length h1
      have hwpos := digitsCount_pos lc
      by_cases hfc : 1 < fc
      · rw [if_pos hfc] at heq
        by_cases hppm : ext = ".ppm"
        · rw [if_pos hppm, hppm] at heq
          have := congrArg List.length heq
          simp [hw] at this
        · rw [if_neg hppm] at heq
          have := congrArg List.length heq
          simp [hw] at this
          omega
      · rw [if_neg hfc] at heq
        by_cases hppm : ext = ".ppm"
        · rw [if_pos hppm] at heq
          simp at heq
        · rw [if_neg hppm] at heq
          simp at heq
    · -- li = 0 against li' > 0: symmetric
      exfalso
      rw [layerSuffix, if_neg (by omega), layerSuffix, if_pos ⟨hlc, hli'⟩] at heq
      have hLw : extSuffix ext li lc fc = if 1 < fc then ext.data else [] := by
        rw [extSuffix, if_neg (fun hc => hli hc.2)]
        by_cases hfc : 1 < fc
        · rw [if_pos (Or.inl hfc), if_pos hfc]
        · rw [if_neg ?_, if_neg hfc]
          rintro (hf | ⟨-, hl⟩)
          · exact hfc hf
          · exact hli hl
      have hRw : extSuffix ext li' lc fc =
          if ext = ".ppm" then ".pgm".data else ext.data := by
        rw [extSuffix]
        by_cases hppm : ext = ".ppm"
        · rw [if_pos ⟨hppm, hli'⟩, if_pos hppm]
        · rw [if_neg (fun hc => hppm hc.1), if_pos (Or.inr ⟨hlc, hli'⟩),
            if_neg hppm]
      rw [hRw, hLw] at heq
      have hw : (zeroPad (digitsCount lc) li').length = digitsCount lc :=
        zeroPad_digitsCount_length h2
      have hwpos := digitsCount_pos lc
      by_cases hfc : 1 < fc
      · rw [if_pos hfc] at heq
        by_cases hppm : ext = ".ppm"
        · rw [if_pos hppm, hppm] at heq
          have := congrArg List.length heq
          simp [hw] at this
        · rw [if_neg hppm] at heq
          have := congrArg List.length heq
          simp [hw] at this
          omega
      · rw [if_neg hfc] at heq
        by_cases hppm : ext = ".ppm"
        · rw [if_pos hppm] at heq
          simp at heq
        · rw [if_neg hppm] at heq
          simp at heq
    · omega
  · omega

theorem filename_inj {base ext : String} {lc fc li fi li' fi' : Nat}
    (hbase : base ≠ "-") (h1 : li < lc) (h2 : li' < lc) (h3 : fi < fc)
    (h4 : fi' < fc)
    (heq : Filename base ext li fi lc fc = Filename base ext li' fi' lc fc) :
    li = li' ∧ fi = fi' := by
  rw [Filename, if_neg hbase, Filename, if_neg hbase] at heq
  have hdata := congrArg String.data heq
  simp only [List.append_assoc] at hdata
  have hsuf := List.append_cancel_left hdata
  by_cases hfc : 1 < fc
  · rw [frameSuffix, if_pos hfc, frameSuffix, if_pos hfc] at hsuf
    simp only [List.cons_append, List.cons.injEq, true_and] at hsuf
    rw [← List.append_assoc, ← List.append_assoc] at hsuf
    obtain ⟨hpad, hrest⟩ := List.append_inj
      (by simpa [List.append_assoc] using hsuf)
      (by rw [zeroPad_digitsCount_length h3, zeroPad_digitsCount_length h4])
    exact ⟨layerPart_inj ext lc fc h1 h2 hrest, zeroPad_inj hpad⟩
  · have hfi : fi = 0 := by omega
    have hfi' : fi' = 0 := by omega
    rw [frameSuffix, frameSuffix, if_neg hfc, if_neg hfc] at hsuf
    simp only [List.nil_append] at hsuf
    exact ⟨layerPart_inj ext lc fc h1 h2 hsuf, by omega⟩

/-- C5 (counterexample): the claim quantifies over every `basePath`, but for
the standard-output path `"-"` `Filename` returns `"-"` unchanged even when
`frameCount > 1`, while the claimed suffix rules would produce
`"--03.png"`. -/
theorem c5_counterexample :
    Filename "-" ".png" 0 3 1 12 = "-" ∧
    FilenameClaim "-" ".png" 0 3 1 12 = "--03.png" ∧
    Filename "-" ".png" 0 3 1 12 ≠ FilenameClaim "-" ".png" 0 3 1 12 := by
  refine ⟨rfl, by decide, by decide⟩

/-- C5 (amended): for every `basePath` other than `"-"` (which is returned
unchanged, see C6) and indices inside the `(layerCount, frameCount)` grid,
`Filename` follows the claimed suffix rules exactly: base path unchanged when
`frameCount = 1` and `layerCount = 1`; `-<frameIndex>` zero-padded to
`1 + floor(log10 frameCount)` digits when `frameCount > 1`;
`-ec<layerIndex>` zero-padded to `1 + floor(log10 layerCount)` digits when
`layerCount > 1` and `layerIndex > 0`; the extension re-appended exactly
when some suffix was added, except that extension `.ppm` with
`layerIndex > 0` appends `.pgm` instead. -/
theorem append_mk_ne_empty (s : String) (l : List Char) (hs : s.data ≠ []) :
    (s ++ String.mk l) ≠ "" := by
  intro h
  have h2 := congrArg String.data h
  rw [String.data_append] at h2
  exact hs (List.append_eq_nil.mp h2).1

theorem framePartClaim_data (fi fc : Nat) :
    (framePartClaim fi fc).data = frameSuffix fi fc := by
  rw [framePartClaim, frameSuffix]
  by_cases hf : 1 < fc
  · rw [if_pos hf, if_pos hf, String.data_append]
    rfl
  · rw [if_neg hf, if_neg hf]

theorem layerPartClaim_data (li lc : Nat) :
    (layerPartClaim li lc).data = layerSuffix li lc := by
  rw [layerPartClaim, layerSuffix]
  by_cases hl : 1 < lc ∧ 0 < li
  · rw [if_pos hl, if_pos hl, String.data_append]
    rfl
  · rw [if_neg hl, if_neg hl]

theorem framePartClaim_ne_iff (fi fc : Nat) :
    framePartClaim fi fc ≠ "" ↔ 1 < fc := by
  rw [framePartClaim]
  by_cases hf : 1 < fc
  · simp only [if_pos hf, iff_true_intro hf, iff_true]
    exact append_mk_ne_empty _ _ (by decide)
  · simp [if_neg hf, hf]

theorem layerPartClaim_ne_iff (li lc : Nat) :
    layerPartClaim li lc ≠ "" ↔ (1 < lc ∧ 0 < li) := by
  rw [layerPartClaim]
  by_cases hl : 1 < lc ∧ 0 < li
  · simp only [if_pos hl, iff_true_intro hl, iff_true]
    exact append_mk_ne_empty _ _ (by decide)
  · simp [if_neg hl, hl]

theorem extPartClaim_data (ext : String) (li fi lc fc : Nat) :
    (extPartClaim ext li fi lc fc).data = extSuffix ext li lc fc := by
  rw [extPartClaim, extSuffix]
  by_cases hp : ext = ".ppm" ∧ 0 < li
  · rw [if_pos hp, if_pos hp]
  · rw [if_neg hp, if_neg hp]
    have hcond : (framePartClaim fi fc ≠ "" ∨ layerPartClaim li lc ≠ "") ↔
        (1 < fc ∨ (1 < lc ∧ 0 < li)) :=
      or_congr (framePartClaim_ne_iff fi fc) (layerPartClaim_ne_iff li lc)
    by_cases hc : 1 < fc ∨ (1 < lc ∧ 0 < li)
    · rw [if_pos (hcond.mpr hc), if_pos hc]
    · rw [if_neg (fun hx => hc (hcond.mp hx)), if_neg hc]

theorem c5_filename_amended (base ext : String) (li fi lc fc : Nat)
    (hbase : base ≠ "-") (_hli : li < lc) (_hfi : fi < fc) :
    Filename base ext li fi lc fc = FilenameClaim base ext li fi lc fc := by
  apply string_eq_of_data
  rw [Filename, if_neg hbase, FilenameClaim]
  rw [String.data_append, String.data_append, String.data_append]
  rw [framePartClaim_data, layerPartClaim_data, extPartClaim_data]

/-- C5 (witness): the amended theorem at the spec's own example
`frameCount = 12, frameIndex = 3` (two-digit zero pad). -/
theorem c5_filename_amended_witness :
    Filename "base" ".png" 0 3 1 12 = FilenameClaim "base" ".png" 0 3 1 12 :=
  c5_filename_amended "base" ".png" 0 3 1 12 (by decide) (by decide) (by decide)

/-- C6 (confirmed): for every `basePath` other than `"-"` and all
`layerCount, frameCount ≥ 1`, `Filename` is injective on the grid
`[0, layerCount) × [0, frameCount)` — distinct `(layer, frame)` pairs yield
distinct output paths; and for `basePath = "-"` it returns `"-"` unchanged
for every pair. -/
theorem c6_filename_unique :
    (∀ (base ext : String) (lc fc li fi li' fi' : Nat), base ≠ "-" →
      li < lc → li' < lc → fi < fc → fi' < fc →
      Filename base ext li fi lc fc = Filename base ext li' fi' lc fc →
      li = li' ∧ fi = fi') ∧
    (∀ (ext : String) (li fi lc fc : Nat), Filename "-" ext li fi lc fc = "-") := by
  constructor
  · intro base ext lc fc li fi li' fi' hbase h1 h2 h3 h4 heq
    exact filename_inj hbase h1 h2 h3 h4 heq
  · intro ext li fi lc fc
    rw [Filename, if_pos rfl]

/-- C6 (witness): the uniqueness theorem applied at concrete indices inside
the grid, plus the stdout clause at a concrete pair. -/
theorem c6_filename_unique_witness :
    (1 = 1 ∧ 2 = 2) ∧ Filename "-" ".png" 1 2 3 5 = "-" :=
  ⟨c6_filename_unique.1 "base" ".png" 3 5 1 2 1 2 (by decide) (by decide)
      (by decide) (by decide) (by decide) rfl,
   c6_filename_unique.2 ".png" 1 2 3 5⟩

/-! ## AddFormatsWithAlphaChannel: claims C7 and C8 -/

theorem addFormat_eq (formats : List JxlPixelFormat) (format : JxlPixelFormat) :
    addFormat formats format =
      if format ∈ formats then formats else formats ++ [format] := by
  rw [addFormat]
  by_cases hm : format ∈ formats
  · rw [if_pos ?_, if_pos hm]
    rw [List.any_eq_true]
    exact ⟨format, hm, by simp⟩
  · rw [if_neg ?_, if_neg hm]
    rw [List.any_eq_true]
    rintro ⟨f, hf, heq⟩
    simp only [decide_eq_true_eq] at heq
    obtain ⟨e1, e2, e3, e4⟩ := heq
    have : f = format := by
      cases f; cases format
      simp_all
    exact hm (this ▸ hf)

theorem succAlphaFormat_inj {f g : JxlPixelFormat}
    (h : succAlphaFormat f = succAlphaFormat g) : f = g := by
  cases f; cases g
  simp only [succAlphaFormat, JxlPixelFormat.mk.injEq] at h ⊢
  obtain ⟨h1, h2, h3, h4⟩ := h
  exact ⟨by omega, h2, h3, h4⟩

theorem addFormatsStep_mem (acc : List JxlPixelFormat) (f x : JxlPixelFormat) :
    x ∈ addFormat acc f ↔ x ∈ acc ∨ x = f := by
  rw [addFormat_eq]
  by_cases hm : f ∈ acc
  · rw [if_pos hm]
    constructor
    · exact Or.inl
    · rintro (h | rfl)
      · exact h
      · exact hm
  · rw [if_neg hm]
    simp

theorem alphaFold_nodup (orig : List JxlPixelFormat) :
    ∀ acc : List JxlPixelFormat, acc.Nodup →
      (orig.foldl alphaFoldStep acc).Nodup := by
  induction orig with
  | nil => intro acc h; exact h
  | cons f orig ih =>
      intro acc h
      rw [List.foldl_cons]
      apply ih
      rw [alphaFoldStep]
      by_cases hc : f.num_channels = 1 ∨ f.num_channels = 3
      · rw [if_pos hc, addFormat_eq]
        by_cases hm : succAlphaFormat f ∈ acc
        · rwa [if_pos hm]
        · rw [if_neg hm]
          simp [List.nodup_append, h, hm]
      · rwa [if_neg hc]

theorem alphaFold_mem (orig : List JxlPixelFormat) :
    ∀ (acc : List JxlPixelFormat) (x : JxlPixelFormat),
      x ∈ orig.foldl alphaFoldStep acc ↔
        x ∈ acc ∨ ∃ f ∈ orig,
          (f.num_channels = 1 ∨ f.num_channels = 3) ∧ x = succAlphaFormat f := by
  induction orig with
  | nil => simp
  | cons g orig ih =>
      intro acc x
      rw [List.foldl_cons, ih]
      constructor
      · rintro (hacc | ⟨f, hf, hc, rfl⟩)
        · rw [alphaFoldStep] at hacc
          by_cases hc : g.num_channels = 1 ∨ g.num_channels = 3
          · rw [if_pos hc] at hacc
            rcases (addFormatsStep_mem acc (succAlphaFormat g) x).mp hacc with
              h | rfl
            · exact Or.inl h
            · exact Or.inr ⟨g, by simp, hc, rfl⟩
          · rw [if_neg hc] at hacc
            exact Or.inl hacc
        · exact Or.inr ⟨f, by simp [hf], hc, rfl⟩
      · rintro (hacc | ⟨f, hf, hc, rfl⟩)
        · left
          rw [alphaFoldStep]
          by_cases hcg : g.num_channels = 1 ∨ g.num_channels = 3
          · rw [if_pos hcg]
            exact (addFormatsStep_mem acc (succAlphaFormat g) x).mpr (Or.inl hacc)
          · rwa [if_neg hcg]
        · rcases List.mem_cons.mp hf with rfl | hf
          · left
            rw [alphaFoldStep, if_pos hc]
            exact (addFormatsStep_mem acc (succAlphaFormat f)
              (succAlphaFormat f)).mpr (Or.inr rfl)
          · exact Or.inr ⟨f, hf, hc, rfl⟩

theorem alphaFold_prefix (orig : List JxlPixelFormat) :
    ∀ acc : List JxlPixelFormat, ∃ extra : List JxlPixelFormat,
      orig.foldl alphaFoldStep acc = acc ++ extra ∧
        ∀ v ∈ extra, v ∉ acc ∧ ∃ f ∈ orig,
          (f.num_channels = 1 ∨ f.num_channels = 3) ∧ v = succAlphaFormat f := by
  induction orig with
  | nil => intro acc; exact ⟨[], by simp⟩
  | cons g orig ih =>
      intro acc
      rw [List.foldl_cons, alphaFoldStep]
      by_cases hc : g.num_channels = 1 ∨ g.num_channels = 3
      · rw [if_pos hc, addFormat_eq]
        by_cases hm : succAlphaFormat g ∈ acc
        · rw [if_pos hm]
          obtain ⟨extra, he, hv⟩ := ih acc
          exact ⟨extra, he, fun v hvm =>
            ⟨(hv v hvm).1, by
              obtain ⟨-, f, hf, hcf, hveq⟩ := hv v hvm
              exact ⟨f, by simp [hf], hcf, hveq⟩⟩⟩
        · rw [if_neg hm]
          obtain ⟨extra, he, hv⟩ := ih (acc ++ [succAlphaFormat g])
          refine ⟨succAlphaFormat g :: extra, by simpa using he, ?_⟩
          rintro v hvm
          rcases List.mem_cons.mp hvm with rfl | hvm
          · exact ⟨hm, g, by simp, hc, rfl⟩
          · obtain ⟨hnm, f, hf, hcf, hveq⟩ := hv v hvm
            refine ⟨fun hin => hnm (by simp [hin]), f, by simp [hf], hcf, hveq⟩
      · rw [if_neg hc]
        obtain ⟨extra, he, hv⟩ := ih acc
        exact ⟨extra, he, fun v hvm =>
          ⟨(hv v hvm).1, by
            obtain ⟨-, f, hf, hcf, hveq⟩ := hv v hvm
            exact ⟨f, by simp [hf], hcf, hveq⟩⟩⟩

/-- C7 (confirmed): `AddFormatsWithAlphaChannel`, applied to a structurally
deduplicated format list, returns the original list followed by synthesized
variants: each appended entry is the channel-count-incremented copy (same
sample type, endianness, alignment) of an original entry with channel count
1 or 3 and was not already present; for every original entry with channel
count 1 or 3 the incremented variant is present in the result; and the
result contains no two structurally identical formats (so the variant is
appended exactly once unless already present). -/
theorem c7_addFormatsWithAlphaChannel (formats : List JxlPixelFormat)
    (hnd : formats.Nodup) :
    (AddFormatsWithAlphaChannel formats).Nodup ∧
    (∃ extra, AddFormatsWithAlphaChannel formats = formats ++ extra ∧
      ∀ v ∈ extra, v ∉ formats ∧ ∃ f ∈ formats,
        (f.num_channels = 1 ∨ f.num_channels = 3) ∧ v = succAlphaFormat f) ∧
    (∀ f ∈ formats, (f.num_channels = 1 ∨ f.num_channels = 3) →
      succAlphaFormat f ∈ AddFormatsWithAlphaChannel formats) ∧
    (∀ x ∈ AddFormatsWithAlphaChannel formats,
      x ∈ formats ∨ ∃ f ∈ formats,
        (f.num_channels = 1 ∨ f.num_channels = 3) ∧ x = succAlphaFormat f) := by
  refine ⟨alphaFold_nodup formats formats hnd, alphaFold_prefix formats formats,
    ?_, ?_⟩
  · intro f hf hc
    exact (alphaFold_mem formats formats (succAlphaFormat f)).mpr
      (Or.inr ⟨f, hf, hc, rfl⟩)
  · intro x hx
    exact (alphaFold_mem formats formats x).mp hx

/-- C7 (witness): the theorem applied to the singleton RGB-float list: the
4-channel variant is appended. -/
theorem c7_addFormatsWithAlphaChannel_witness :
    succAlphaFormat ⟨3, JxlDataType.float, JxlEndianness.littleEndian, 0⟩ ∈
      AddFormatsWithAlphaChannel
        [⟨3, JxlDataType.float, JxlEndianness.littleEndian, 0⟩] :=
  (c7_addFormatsWithAlphaChannel
      [⟨3, JxlDataType.float, JxlEndianness.littleEndian, 0⟩]
      (by decide)).2.2.1
    ⟨3, JxlDataType.float, JxlEndianness.littleEndian, 0⟩ (by decide)
    (Or.inr rfl)

/-- C8 (confirmed): when no output encoder is selected (no output file to
write), the accepted-format list handed to the decode engine is exactly the
eight formats from channel counts {1,2,3,4} crossed with
{big-endian, little-endian}, all float, alignment 0 — in particular it is
non-empty. -/
theorem c8_default_formats (cfg : MainConfig)
    (encoderFormats : List JxlPixelFormat) (h : filenameOut cfg = "") :
    acceptedFormatsFor cfg encoderFormats =
      [⟨1, JxlDataType.float, JxlEndianness.bigEndian, 0⟩,
       ⟨1, JxlDataType.float, JxlEndianness.littleEndian, 0⟩,
       ⟨2, JxlDataType.float, JxlEndianness.bigEndian, 0⟩,
       ⟨2, JxlDataType.float, JxlEndianness.littleEndian, 0⟩,
       ⟨3, JxlDataType.float, JxlEndianness.bigEndian, 0⟩,
       ⟨3, JxlDataType.float, JxlEndianness.littleEndian, 0⟩,
       ⟨4, JxlDataType.float, JxlEndianness.bigEndian, 0⟩,
       ⟨4, JxlDataType.float, JxlEndianness.littleEndian, 0⟩] ∧
    acceptedFormatsFor cfg encoderFormats ≠ [] := by
  rw [acceptedFormatsFor, if_pos h]
  exact ⟨by decide, by decide⟩

/-- C8 (witness): the theorem applied to the benchmarking configuration
(`--disable_output`), under which no output file is written. -/
theorem c8_default_formats_witness :
    acceptedFormatsFor cfgBench [] =
      [⟨1, JxlDataType.float, JxlEndianness.bigEndian, 0⟩,
       ⟨1, JxlDataType.float, JxlEndianness.littleEndian, 0⟩,
       ⟨2, JxlDataType.float, JxlEndianness.bigEndian, 0⟩,
       ⟨2, JxlDataType.float, JxlEndianness.littleEndian, 0⟩,
       ⟨3, JxlDataType.float, JxlEndianness.bigEndian, 0⟩,
       ⟨3, JxlDataType.float, JxlEndianness.littleEndian, 0⟩,
       ⟨4, JxlDataType.float, JxlEndianness.bigEndian, 0⟩,
       ⟨4, JxlDataType.float, JxlEndianness.littleEndian, 0⟩] ∧
    acceptedFormatsFor cfgBench [] ≠ [] :=
  c8_default_formats cfgBench [] rfl

/-! ## Orchestration: event-shape lemmas -/

theorem reconLoop_events {recon : Nat → Bool × Bool} :
    ∀ (r i : Nat) (be : Bool), ∀ e ∈ (reconLoop recon r i be).1,
      e = Event.reconstructCall ∨ e = Event.statSample := by
  intro r
  induction r with
  | zero => intro i be e he; simp [reconLoop] at he
  | succ r ih =>
      intro i be e he
      simp only [reconLoop] at he
      split at he
      · simp only [List.mem_cons] at he
        rcases he with rfl | rfl | he
        · exact Or.inl rfl
        · exact Or.inr rfl
        · exact ih (i + 1) _ e he
      · split at he <;> simp only [List.mem_singleton] at he <;>
          exact Or.inl he

theorem pixelLoop_events {pix : Nat → Bool} :
    ∀ (r i : Nat), ∀ e ∈ (pixelLoop pix r i).1,
      e = Event.pixelDecodeCall ∨ e = Event.statSample := by
  intro r
  induction r with
  | zero => intro i e he; simp [pixelLoop] at he
  | succ r ih =>
      intro i e he
      simp only [pixelLoop] at he
      split at he
      · simp only [List.mem_cons] at he
        rcases he with rfl | rfl | he
        · exact Or.inl rfl
        · exact Or.inr rfl
        · exact ih (i + 1) e he
      · simp only [List.mem_singleton] at he
        exact Or.inl he

theorem writeLoop_events {writeOk : String → Bool} :
    ∀ (fns : List String), ∀ e ∈ (writeLoop writeOk fns).1,
      ∃ fn, e = Event.writeOutput fn := by
  intro fns
  induction fns with
  | nil => intro e he; simp [writeLoop] at he
  | cons fn fns ih =>
      intro e he
      simp only [writeLoop] at he
      split at he
      · simp only [List.mem_cons] at he
        rcases he with rfl | he
        · exact ⟨fn, rfl⟩
        · exact ih e he
      · simp only [List.mem_singleton] at he
        exact ⟨fn, he⟩

theorem optionalWrite_events {writeOk : String → Bool} (fn : String)
    (ne : Bool) : ∀ e ∈ (optionalWrite writeOk fn ne).1,
      ∃ g, e = Event.writeOptional g := by
  intro e he
  simp only [optionalWrite] at he
  split at he
  · simp at he
  · simp only [List.mem_singleton] at he
    exact ⟨fn, he⟩

theorem optionalStage_events (cfg : MainConfig) (or : Oracles) :
    ∀ e ∈ (optionalStage cfg or).1, ∃ g, e = Event.writeOptional g := by
  intro e he
  simp only [optionalStage] at he
  split at he
  · exact optionalWrite_events _ _ e he
  · split at he
    · rcases List.mem_append.mp he with he | he
      · exact optionalWrite_events _ _ e he
      · exact optionalWrite_events _ _ e he
    · split at he
      · rcases List.mem_append.mp he with he | he
        · rcases List.mem_append.mp he with he | he
          · exact optionalWrite_events _ _ e he
          · exact optionalWrite_events _ _ e he
        · exact optionalWrite_events _ _ e he
      · rcases List.mem_append.mp he with he | he
        · rcases List.mem_append.mp he with he | he
          · rcases List.mem_append.mp he with he | he
            · exact optionalWrite_events _ _ e he
            · exact optionalWrite_events _ _ e he
          · exact optionalWrite_events _ _ e he
        · exact optionalWrite_events _ _ e he

theorem alphaStage_events (cfg : MainConfig) (or : Oracles) :
    ∀ e ∈ (alphaStage cfg or).1,
      e = Event.warnInvalidBackground ∨ e = Event.alphaBlendCall ∨
        e = Event.abortException := by
  intro e he
  simp only [alphaStage] at he
  split at he
  · split at he <;> simp only [List.mem_singleton, List.mem_cons] at he <;>
      tauto
  · simp at he

theorem encoderStage_events (cfg : MainConfig) (or : Oracles) :
    ∀ e ∈ (encoderStage cfg or).1,
      e = Event.warnInvalidBackground ∨ e = Event.alphaBlendCall ∨
        e = Event.abortException ∨ e = Event.encodeCall ∨
        (∃ fn, e = Event.writeOutput fn) ∨ (∃ fn, e = Event.writeOptional fn) := by
  intro e he
  simp only [encoderStage] at he
  split at he
  · simp at he
  · split at he
    · have := alphaStage_events cfg or e he
      tauto
    · split at he
      · rcases List.mem_append.mp he with he | he
        · have := alphaStage_events cfg or e he
          tauto
        · simp only [List.mem_singleton] at he
          tauto
      · split at he
        · rcases List.mem_append.mp he with he | he
          · rcases List.mem_append.mp he with he | he
            · have := alphaStage_events cfg or e he
              tauto
            · simp only [List.mem_singleton] at he
              tauto
          · have := writeLoop_events _ e he
            tauto
        · rcases List.mem_append.mp he with he | he
          · rcases List.mem_append.mp he with he | he
            · rcases List.mem_append.mp he with he | he
              · have := alphaStage_events cfg or e he
                tauto
              · simp only [List.mem_singleton] at he
                tauto
            · have := writeLoop_events _ e he
              tauto
          · have := optionalStage_events cfg or e he
            tauto

theorem pixelPath_events (cfg : MainConfig) (or : Oracles) :
    ∀ e ∈ (pixelPath cfg or).1,
      e = Event.pixelDecodeCall ∨ e = Event.statSample ∨
        e = Event.warnInvalidBackground ∨ e = Event.alphaBlendCall ∨
        e = Event.abortException ∨ e = Event.encodeCall ∨
        (∃ fn, e = Event.writeOutput fn) ∨ (∃ fn, e = Event.writeOptional fn) := by
  intro e he
  simp only [pixelPath] at he
  split at he
  · simp at he
  · split at he
    · have := pixelLoop_events _ _ e he
      tauto
    · rcases List.mem_append.mp he with he | he
      · have := pixelLoop_events _ _ e he
        tauto
      · have := encoderStage_events cfg or e he
        tauto

theorem pixelPath_no_reconstruct (cfg : MainConfig) (or : Oracles) :
    Event.reconstructCall ∉ (pixelPath cfg or).1 := by
  intro he
  rcases pixelPath_events cfg or _ he with h | h | h | h | h | h | ⟨fn, h⟩ | ⟨fn, h⟩ <;>
    exact Event.noConfusion h

theorem pixelPath_no_warnFallback (cfg : MainConfig) (or : Oracles) :
    Event.warnFallback ∉ (pixelPath cfg or).1 := by
  intro he
  rcases pixelPath_events cfg or _ he with h | h | h | h | h | h | ⟨fn, h⟩ | ⟨fn, h⟩ <;>
    exact Event.noConfusion h

theorem reconLoop_no_pixelDecode {recon : Nat → Bool × Bool} (r i : Nat)
    (be : Bool) : Event.pixelDecodeCall ∉ (reconLoop recon r i be).1 := by
  intro he
  rcases reconLoop_events r i be _ he with h | h <;> exact Event.noConfusion h

/-! ## Orchestration: loop characterizations -/

theorem reconLoop_fallback (recon : Nat → Bool × Bool) :
    ∀ (k r i : Nat) (be : Bool), k < r →
      (∀ j, j < k → recon (i + j) = (true, true)) →
      recon (i + k) = (false, true) →
      reconLoop recon r i be =
        ((List.replicate k [Event.reconstructCall, Event.statSample]).flatten ++
          [Event.reconstructCall], .fallback) := by
  intro k
  induction k with
  | zero =>
      intro r i be hr _ hk
      match r, hr with
      | r + 1, _ =>
          rw [reconLoop]
          rw [show recon i = (false, true) by simpa using hk]
          simp
  | succ k ih =>
      intro r i be hr hsucc hk
      match r, hr with
      | r + 1, _ =>
          have h0 : recon i = (true, true) := by
            simpa using hsucc 0 (by omega)
          rw [reconLoop, h0]
          simp only
          rw [ih r (i + 1) true (by omega)
            (fun j hj => by
              rw [show i + 1 + j = i + (j + 1) by omega]
              exact hsucc (j + 1) (by omega))
            (by rw [show i + 1 + k = i + (k + 1) by omega]; exact hk)]
          simp [List.replicate_succ]

theorem reconLoop_fatal (recon : Nat → Bool × Bool) :
    ∀ (k r i : Nat) (be : Bool), k < r →
      (∀ j, j < k → (recon (i + j)).1 = true) →
      recon (i + k) = (false, false) →
      (reconLoop recon r i be).2 = ReconOutcome.fatal := by
  intro k
  induction k with
  | zero =>
      intro r i be hr _ hk
      match r, hr with
      | r + 1, _ =>
          rw [reconLoop]
          rw [show recon i = (false, false) by simpa using hk]
          simp
  | succ k ih =>
      intro r i be hr hsucc hk
      match r, hr with
      | r + 1, _ =>
          have h0 : (recon i).1 = true := by
            simpa using hsucc 0 (by omega)
          rw [reconLoop, if_pos h0]
          exact ih r (i + 1) (recon i).2 (by omega)
            (fun j hj => by
              rw [show i + 1 + j = i + (j + 1) by omega]
              exact hsucc (j + 1) (by omega))
            (by rw [show i + 1 + k = i + (k + 1) by omega]; exact hk)

theorem pixelLoop_all_ok {pix : Nat → Bool} (hp : ∀ j, pix j = true) :
    ∀ (r i : Nat),
      pixelLoop pix r i =
        ((List.replicate r [Event.pixelDecodeCall, Event.statSample]).flatten,
         true) := by
  intro r
  induction r with
  | zero => intro i; rfl
  | succ r ih =>
      intro i
      rw [pixelLoop, if_pos (hp i), ih (i + 1)]
      simp [List.replicate_succ]

theorem pixelLoop_fail_at (pix : Nat → Bool) :
    ∀ (k r i : Nat), k < r →
      (∀ j, j < k → pix (i + j) = true) → pix (i + k) = false →
      pixelLoop pix r i =
        ((List.replicate k [Event.pixelDecodeCall, Event.statSample]).flatten ++
          [Event.pixelDecodeCall], false) := by
  intro k
  induction k with
  | zero =>
      intro r i hr _ hk
      match r, hr with
      | r + 1, _ =>
          rw [pixelLoop, if_neg (by simpa using hk)]
          simp
  | succ k ih =>
      intro r i hr hsucc hk
      match r, hr with
      | r + 1, _ =>
          rw [pixelLoop, if_pos (by simpa using hsucc 0 (by omega))]
          rw [ih r (i + 1) (by omega)
            (fun j hj => by
              rw [show i + 1 + j = i + (j + 1) by omega]
              exact hsucc (j + 1) (by omega))
            (by rw [show i + 1 + k = i + (k + 1) by omega]; exact hk)]
          simp [List.replicate_succ]

theorem count_flatten_replicate (k : Nat) (l : List Event) (e : Event) :
    ((List.replicate k l).flatten).count e = k * l.count e := by
  induction k with
  | zero => simp
  | succ k ih =>
      rw [List.replicate_succ, List.flatten_cons, List.count_append, ih]
      ring

theorem countP_flatten_replicate (k : Nat) (l : List Event) (p : Event → Bool) :
    ((List.replicate k l).flatten).countP p = k * l.countP p := by
  induction k with
  | zero => simp
  | succ k ih =>
      rw [List.replicate_succ, List.flatten_cons, List.countP_append, ih]
      ring

theorem count_eq_zero_of_shapes {l : List Event} {e : Event}
    (h : e ∉ l) : l.count e = 0 :=
  List.count_eq_zero.mpr h

/-- C1 (confirmed): on the legacy-reconstruct path, if a reconstruct call
fails while the byte buffer is empty (no bytes ever produced), the program
emits the non-fatal retry warning, switches to the pixel-decode path exactly
once (the whole remaining trace is one run of the pixel path, which contains
no reconstruct call), and never re-attempts reconstruction; if a call fails
after bytes were produced, the program exits with a fatal status without
attempting pixel decode. -/
theorem c1_reconstruct_fallback (cfg : MainConfig) (or : Oracles) (k : Nat) :
    (initialDecodeToPixels cfg = false → cfg.quiet = false →
      k < cfg.numReps → (∀ j, j < k → or.recon j = (true, true)) →
      or.recon k = (false, true) →
      (runMain cfg or).1 =
        (List.replicate k [Event.reconstructCall, Event.statSample]).flatten ++
          [Event.reconstructCall, Event.warnFallback] ++ (pixelPath cfg or).1 ∧
      Event.reconstructCall ∉ (pixelPath cfg or).1 ∧
      (runMain cfg or).1.count Event.reconstructCall = k + 1 ∧
      (runMain cfg or).1.count Event.warnFallback = 1 ∧
      (runMain cfg or).2 = (pixelPath cfg or).2) ∧
    (initialDecodeToPixels cfg = false → k < cfg.numReps →
      (∀ j, j < k → (or.recon j).1 = true) → or.recon k = (false, false) →
      (runMain cfg or).2 = false ∧
      Event.pixelDecodeCall ∉ (runMain cfg or).1) := by
  constructor
  · intro hdtp hq hk hpre hfail
    have hloop := reconLoop_fallback or.recon k cfg.numReps 0 true hk
      (fun j hj => by rw [Nat.zero_add]; exact hpre j hj)
      (by rw [Nat.zero_add]; exact hfail)
    have hrm : runMain cfg or =
        (((List.replicate k [Event.reconstructCall, Event.statSample]).flatten ++
            [Event.reconstructCall] ++ [Event.warnFallback]) ++
          (pixelPath cfg or).1, (pixelPath cfg or).2) := by
      rw [runMain, if_neg (by simp [hdtp])]
      rw [hloop]
      simp [hq]
    refine ⟨?_, pixelPath_no_reconstruct cfg or, ?_, ?_, by rw [hrm]⟩
    · rw [hrm]
      simp
    · rw [hrm]
      simp only [List.count_append, count_flatten_replicate]
      rw [count_eq_zero_of_shapes (pixelPath_no_reconstruct cfg or)]
      simp
    · rw [hrm]
      simp only [List.count_append, count_flatten_replicate]
      rw [count_eq_zero_of_shapes (pixelPath_no_warnFallback cfg or)]
      simp
  · intro hdtp hk hpre hfail
    have houtcome := reconLoop_fatal or.recon k cfg.numReps 0 true hk
      (fun j hj => by rw [Nat.zero_add]; exact hpre j hj)
      (by rw [Nat.zero_add]; exact hfail)
    have hnp := @reconLoop_no_pixelDecode or.recon cfg.numReps 0 true
    rcases hr : reconLoop or.recon cfg.numReps 0 true with ⟨evs, out⟩
    rw [hr] at houtcome
    simp only at houtcome
    subst houtcome
    have hrm : runMain cfg or = (evs, false) := by
      rw [runMain, if_neg (by simp [hdtp]), hr]
    rw [hr] at hnp
    rw [hrm]
    exact ⟨rfl, hnp⟩

/-- C1 (witness): the fallback clause at a reconstruct oracle that always
fails with an empty buffer, and the fatal clause at an oracle whose second
call fails after the first produced bytes. -/
theorem c1_reconstruct_fallback_witness :
    ((runMain cfgJpegOut oracleReconFailsEmpty).1 =
        (List.replicate 0 [Event.reconstructCall, Event.statSample]).flatten ++
          [Event.reconstructCall, Event.warnFallback] ++
          (pixelPath cfgJpegOut oracleReconFailsEmpty).1 ∧
      Event.reconstructCall ∉ (pixelPath cfgJpegOut oracleReconFailsEmpty).1 ∧
      (runMain cfgJpegOut oracleReconFailsEmpty).1.count
        Event.reconstructCall = 0 + 1 ∧
      (runMain cfgJpegOut oracleReconFailsEmpty).1.count
        Event.warnFallback = 1 ∧
      (runMain cfgJpegOut oracleReconFailsEmpty).2 =
        (pixelPath cfgJpegOut oracleReconFailsEmpty).2) ∧
    ((runMain (⟨some "out.jpg", false, Codec.kJPG, ".jpg", true, false, false,
        2, false, "white", false, false, true, false, "", "", "", ""⟩)
        oracleReconFailsAfterBytes).2 = false ∧
      Event.pixelDecodeCall ∉
        (runMain (⟨some "out.jpg", false, Codec.kJPG, ".jpg", true, false,
          false, 2, false, "white", false, false, true, false, "", "", "",
          ""⟩) oracleReconFailsAfterBytes).1) :=
  ⟨(c1_reconstruct_fallback cfgJpegOut oracleReconFailsEmpty 0).1 rfl rfl
      (by decide) (fun j hj => absurd hj (Nat.not_lt_zero j)) rfl,
   (c1_reconstruct_fallback _ oracleReconFailsAfterBytes 1).2 rfl (by decide)
      (fun j hj => by interval_cases j; rfl) rfl⟩

/-- C2 (confirmed): the effective path is selected before any decode
attempt — the legacy-reconstruct path (`decode_to_pixels = false`) is chosen
iff an output file will actually be written (`file_out` passed and not
`--disable_output`), its detected codec is JPEG, and neither
`--pixels_to_jpeg` nor `--jpeg_quality` was passed; in every other case the
pixel-decode path runs directly (and then no reconstruct call appears in the
trace), and when the reconstruct path is chosen the pixel path runs only
through the documented fallback (no pixel-decode call otherwise).  The side
condition says the two flags can only be passed when the JPEG encoder is
compiled in (they are not registered otherwise). -/
theorem c2_path_selection (cfg : MainConfig) (or : Oracles)
    (henc : cfg.jpegEncoderAvailable = false →
      cfg.pixelsToJpeg = false ∧ cfg.jpegQualityMatched = false) :
    (initialDecodeToPixels cfg = false ↔
      (cfg.fileOut.isSome = true ∧ cfg.disableOutput = false ∧
       cfg.detectedCodec = Codec.kJPG ∧ cfg.pixelsToJpeg = false ∧
       cfg.jpegQualityMatched = false)) ∧
    (initialDecodeToPixels cfg = true →
      runMain cfg or = pixelPath cfg or ∧
      Event.reconstructCall ∉ (runMain cfg or).1) ∧
    (initialDecodeToPixels cfg = false →
      (reconLoop or.recon cfg.numReps 0 true).2 ≠ ReconOutcome.fallback →
      Event.pixelDecodeCall ∉ (runMain cfg or).1) := by
  refine ⟨?_, ?_, ?_⟩
  · rw [initialDecodeToPixels]
    by_cases hav : cfg.jpegEncoderAvailable = true ∧
        (cfg.pixelsToJpeg = true ∨ cfg.jpegQualityMatched = true)
    · rw [if_pos (by simpa using hav)]
      constructor
      · intro h; simp at h
      · rintro ⟨-, -, -, h4, h5⟩
        rw [h4, h5] at hav
        simp at hav
    · rw [if_neg (by simpa using hav)]
      have hflags : cfg.pixelsToJpeg = false ∧ cfg.jpegQualityMatched = false := by
        rcases hA : cfg.jpegEncoderAvailable with - | -
        · exact henc hA
        · constructor
          · rcases hP : cfg.pixelsToJpeg with - | -
            · rfl
            · exact absurd ⟨hA, Or.inl hP⟩ hav
          · rcases hQ : cfg.jpegQualityMatched with - | -
            · rfl
            · exact absurd ⟨hA, Or.inr hQ⟩ hav
      rw [effectiveCodec]
      rcases hfo : cfg.fileOut with - | s
      · simp [hflags.1, hflags.2]
      · rcases hdo : cfg.disableOutput with - | -
        · simp [hflags.1, hflags.2]
        · simp [hflags.1, hflags.2]
  · intro h
    have hrm : runMain cfg or = pixelPath cfg or := by
      rw [runMain, if_pos (by simp [h])]
    exact ⟨hrm, by rw [hrm]; exact pixelPath_no_reconstruct cfg or⟩
  · intro hdtp hnf
    rcases hr : reconLoop or.recon cfg.numReps 0 true with ⟨evs, out⟩
    have hnp := @reconLoop_no_pixelDecode or.recon cfg.numReps 0 true
    rw [hr] at hnp hnf
    simp only at hnp hnf
    rcases out with be | - | -
    · have hrm : runMain cfg or =
          (if be then (evs, true)
           else if filenameOut cfg ≠ "" then
             (evs ++ [Event.writeOutput (filenameOut cfg)],
              or.writeOk (filenameOut cfg))
           else (evs, true)) := by
        rw [runMain, if_neg (by simp [hdtp]), hr]
      rw [hrm]
      rcases be with - | -
      · simp only [Bool.false_eq_true, if_false]
        split
        · intro hin
          rcases List.mem_append.mp hin with hin | hin
          · exact hnp hin
          · simp at hin
        · exact hnp
      · simp only [if_true]
        exact hnp
    · exact absurd rfl hnf
    · have hrm : runMain cfg or = (evs, false) := by
        rw [runMain, if_neg (by simp [hdtp]), hr]
      rw [hrm]
      exact hnp

/-- C2 (witness): the selection criterion and one-path facts at the default
JPEG-output configuration. -/
theorem c2_path_selection_witness :
    (initialDecodeToPixels cfgJpegOut = false ↔
      (cfgJpegOut.fileOut.isSome = true ∧ cfgJpegOut.disableOutput = false ∧
       cfgJpegOut.detectedCodec = Codec.kJPG ∧
       cfgJpegOut.pixelsToJpeg = false ∧
       cfgJpegOut.jpegQualityMatched = false)) ∧
    (initialDecodeToPixels cfgJpegOut = true →
      runMain cfgJpegOut oracleAllOk = pixelPath cfgJpegOut oracleAllOk ∧
      Event.reconstructCall ∉ (runMain cfgJpegOut oracleAllOk).1) ∧
    (initialDecodeToPixels cfgJpegOut = false →
      (reconLoop oracleAllOk.recon cfgJpegOut.numReps 0 true).2 ≠
        ReconOutcome.fallback →
      Event.pixelDecodeCall ∉ (runMain cfgJpegOut oracleAllOk).1) :=
  c2_path_selection cfgJpegOut oracleAllOk (fun h => by cases h)

/-! ## Orchestration: pixel-path stage computations -/

theorem alphaStage_off (cfg : MainConfig) (or : Oracles)
    (h : cfg.alphaBlend = false) : alphaStage cfg or = ([], true) := by
  rw [alphaStage, if_neg (by simp [h])]

theorem count_optionalStage (cfg : MainConfig) (or : Oracles) (e : Event)
    (h : ∀ g, e ≠ Event.writeOptional g) :
    (optionalStage cfg or).1.count e = 0 :=
  count_eq_zero_of_shapes fun hin => by
    rcases optionalStage_events cfg or e hin with ⟨g, rfl⟩
    exact h g rfl

theorem countP_main_optionalStage (cfg : MainConfig) (or : Oracles) :
    (optionalStage cfg or).1.countP isMainWrite = 0 :=
  List.countP_eq_zero.mpr fun a ha => by
    rcases optionalStage_events cfg or a ha with ⟨g, rfl⟩
    simp [isMainWrite]

theorem encOutputPaths_one (cfg : MainConfig) (or : Oracles)
    (hbs : or.numBitstreams = 1) (heg : or.numExtraGroups = 0) :
    encOutputPaths cfg or =
      [Filename (filenameOut cfg) cfg.extension 0 0 1 1] := by
  rw [encOutputPaths]
  rcases hoe : cfg.outputExtraChannels with - | - <;>
    rcases hof : cfg.outputFrames with - | - <;>
    rcases hc : cfg.coalescing with - | - <;>
    simp [hoe, hof, hc, heg, hbs, show List.range 1 = [0] from rfl]

theorem writeLoop_single (writeOk : String → Bool) (fn : String) :
    (writeLoop writeOk [fn]).1 = [Event.writeOutput fn] := by
  rcases h : writeOk fn with - | - <;> simp [writeLoop, h]

theorem encoderStage_one_trace (cfg : MainConfig) (or : Oracles)
    (hfn : ¬filenameOut cfg = "") (hab : cfg.alphaBlend = false)
    (henc : or.encodeOk = true) (hbs : or.numBitstreams = 1)
    (heg : or.numExtraGroups = 0) :
    (encoderStage cfg or).1 =
      if or.writeOk (Filename (filenameOut cfg) cfg.extension 0 0 1 1) then
        [Event.encodeCall,
         Event.writeOutput (Filename (filenameOut cfg) cfg.extension 0 0 1 1)] ++
          (optionalStage cfg or).1
      else
        [Event.encodeCall,
         Event.writeOutput (Filename (filenameOut cfg) cfg.extension 0 0 1 1)] := by
  rw [encoderStage, if_neg hfn, alphaStage_off cfg or hab]
  simp only [henc]
  rw [encOutputPaths_one cfg or hbs heg]
  rcases hw : or.writeOk (Filename (filenameOut cfg) cfg.extension 0 0 1 1)
    with - | - <;>
    simp [writeLoop, hw]

theorem encoderStage_one_counts (cfg : MainConfig) (or : Oracles)
    (hfn : ¬filenameOut cfg = "") (hab : cfg.alphaBlend = false)
    (henc : or.encodeOk = true) (hbs : or.numBitstreams = 1)
    (heg : or.numExtraGroups = 0) :
    (encoderStage cfg or).1.count Event.encodeCall = 1 ∧
    (encoderStage cfg or).1.countP isMainWrite = 1 ∧
    (encoderStage cfg or).1.count Event.pixelDecodeCall = 0 ∧
    (encoderStage cfg or).1.count Event.statSample = 0 := by
  rw [encoderStage_one_trace cfg or hfn hab henc hbs heg]
  rcases hw : or.writeOk (Filename (filenameOut cfg) cfg.extension 0 0 1 1)
    with - | -
  · rw [if_neg (by simp [hw])]
    simp [List.count_cons, List.countP_cons, isMainWrite]
  · rw [if_pos (by simp [hw])]
    simp only [List.count_append, List.countP_append]
    rw [count_optionalStage cfg or Event.encodeCall
        (by intro g h; exact Event.noConfusion h),
      count_optionalStage cfg or Event.pixelDecodeCall
        (by intro g h; exact Event.noConfusion h),
      count_optionalStage cfg or Event.statSample
        (by intro g h; exact Event.noConfusion h),
      countP_main_optionalStage cfg or]
    simp [List.count_cons, List.countP_cons, isMainWrite]

/-- C9 (confirmed): with `--num_reps N` on the pixel-decode path, for a
1-frame image with no extra channels and a selected encoder: when every
decode iteration succeeds and the encoder succeeds, the decode call executes
exactly `N` times, exactly `N` elapsed-time samples are recorded, and
encoding and the main output file write happen exactly once; when iteration
`k` fails, `k + 1` decode calls but only `k` samples are recorded, nothing
is encoded or written, and the exit is fatal. -/
theorem c9_numreps (cfg : MainConfig) (or : Oracles)
    (hdtp : initialDecodeToPixels cfg = true)
    (hfn : ¬filenameOut cfg = "") (hef : or.encoderFound = true)
    (hab : cfg.alphaBlend = false) (henc : or.encodeOk = true)
    (hbs : or.numBitstreams = 1) (heg : or.numExtraGroups = 0) :
    ((∀ j, or.pix j = true) →
      (runMain cfg or).1.count Event.pixelDecodeCall = cfg.numReps ∧
      (runMain cfg or).1.count Event.statSample = cfg.numReps ∧
      (runMain cfg or).1.count Event.encodeCall = 1 ∧
      (runMain cfg or).1.countP isMainWrite = 1) ∧
    (∀ k, k < cfg.numReps → (∀ j, j < k → or.pix j = true) →
      or.pix k = false →
      (runMain cfg or).1.count Event.pixelDecodeCall = k + 1 ∧
      (runMain cfg or).1.count Event.statSample = k ∧
      (runMain cfg or).1.count Event.encodeCall = 0 ∧
      (runMain cfg or).1.countP isMainWrite = 0 ∧
      (runMain cfg or).2 = false) := by
  have hrm : runMain cfg or = pixelPath cfg or := by
    rw [runMain, if_pos (by simp [hdtp])]
  have hguard : ¬(filenameOut cfg ≠ "" ∧ or.encoderFound = false) := by
    rintro ⟨-, h⟩
    rw [hef] at h
    exact Bool.noConfusion h
  constructor
  · intro hp
    have hloop := pixelLoop_all_ok hp cfg.numReps 0
    have hpp : pixelPath cfg or =
        ((List.replicate cfg.numReps
            [Event.pixelDecodeCall, Event.statSample]).flatten ++
          (encoderStage cfg or).1, (encoderStage cfg or).2) := by
      rw [pixelPath, if_neg hguard, hloop]
      simp
    obtain ⟨he1, he2, he3, he4⟩ :=
      encoderStage_one_counts cfg or hfn hab henc hbs heg
    rw [hrm, hpp]
    simp only [List.count_append, List.countP_append,
      count_flatten_replicate, countP_flatten_replicate, he1, he2, he3, he4]
    refine ⟨?_, ?_, ?_, ?_⟩ <;> simp [isMainWrite]
  · intro k hk hpre hfail
    have hloop := pixelLoop_fail_at or.pix k cfg.numReps 0 hk
      (fun j hj => by rw [Nat.zero_add]; exact hpre j hj)
      (by rw [Nat.zero_add]; exact hfail)
    have hpp : pixelPath cfg or =
        ((List.replicate k
            [Event.pixelDecodeCall, Event.statSample]).flatten ++
          [Event.pixelDecodeCall], false) := by
      rw [pixelPath, if_neg hguard, hloop]
      simp
    rw [hrm, hpp]
    simp only [List.count_append, List.countP_append,
      count_flatten_replicate, countP_flatten_replicate]
    refine ⟨?_, ?_, ?_, ?_, ?_⟩ <;> simp [isMainWrite]

/-- C9 (witness): `--num_reps 3` decoding to PNG with everything succeeding:
3 decode calls, 3 samples, one encode, one write. -/
theorem c9_numreps_witness :
    (runMain (⟨some "out.png", false, Codec.kOther, ".png", true, false,
        false, 3, false, "white", false, false, true, false, "", "", "",
        ""⟩) oracleAllOk).1.count Event.pixelDecodeCall = 3 ∧
    (runMain (⟨some "out.png", false, Codec.kOther, ".png", true, false,
        false, 3, false, "white", false, false, true, false, "", "", "",
        ""⟩) oracleAllOk).1.count Event.statSample = 3 ∧
    (runMain (⟨some "out.png", false, Codec.kOther, ".png", true, false,
        false, 3, false, "white", false, false, true, false, "", "", "",
        ""⟩) oracleAllOk).1.count Event.encodeCall = 1 ∧
    (runMain (⟨some "out.png", false, Codec.kOther, ".png", true, false,
        false, 3, false, "white", false, false, true, false, "", "", "",
        ""⟩) oracleAllOk).1.countP isMainWrite = 1 :=
  (c9_numreps _ oracleAllOk (by decide) (by decide) (by decide) (by decide)
      (by decide) (by decide) (by decide)).1 (fun j => rfl)

/-! ## C4: invalid background spec -/

theorem writeLoop_all_ok {writeOk : String → Bool}
    (hw : ∀ fn, writeOk fn = true) :
    ∀ fns : List String, (writeLoop writeOk fns).2 = true := by
  intro fns
  induction fns with
  | nil => rfl
  | cons fn fns ih => rw [writeLoop, if_pos (hw fn)]; exact ih

theorem optionalWrite_ok {writeOk : String → Bool}
    (hw : ∀ fn, writeOk fn = true) (fn : String) (ne : Bool) :
    (optionalWrite writeOk fn ne).2 = true := by
  rw [optionalWrite]
  split
  · rfl
  · exact hw fn

theorem optionalStage_ok (cfg : MainConfig) (or : Oracles)
    (hw : ∀ fn, or.writeOk fn = true) : (optionalStage cfg or).2 = true := by
  rw [optionalStage]
  simp only [optionalWrite_ok hw]
  simp

/-- C4 (counterexample): the spec claims an unparseable `--background` spec
is never fatal by itself; but with `--alpha_blend --background "#zzzzzz"`
(length 7, leading `#`, no parseable hex digit) `std::stoi` throws an
uncaught `std::invalid_argument`: the process aborts with a non-zero status,
no warning is printed, and encoding never runs — even though every external
call would have succeeded. -/
theorem c4_counterexample :
    ParseBackgroundColor "#zzzzzz" = ParseResult.crash ∧
    (runMain (cfgAlphaBlend "#zzzzzz") oracleAllOk).2 = false ∧
    Event.warnInvalidBackground ∉
      (runMain (cfgAlphaBlend "#zzzzzz") oracleAllOk).1 ∧
    Event.encodeCall ∉ (runMain (cfgAlphaBlend "#zzzzzz") oracleAllOk).1 ∧
    Event.abortException ∈ (runMain (cfgAlphaBlend "#zzzzzz") oracleAllOk).1 := by
  decide

/-- C4 (amended): when `--alpha_blend` is requested and the background spec
fails to parse with `ParseBackgroundColor` returning false (wrong length or
missing `'#'`), the program only prints a warning and continues: alpha
blending and encoding still run and the invalid spec by itself never causes
a non-zero exit status; however a 7-character `'#'` spec with no parseable
hex digit aborts the process through an uncaught exception (see the
counterexample). -/
theorem c4_invalid_background_nonfatal (cfg : MainConfig) (or : Oracles)
    (hab : cfg.alphaBlend = true)
    (hbg : ParseBackgroundColor cfg.backgroundSpec = ParseResult.invalid)
    (hdtp : initialDecodeToPixels cfg = true)
    (hfn : ¬filenameOut cfg = "") (hef : or.encoderFound = true)
    (hpix : ∀ j, or.pix j = true) (hblend : or.alphaBlendOk = true)
    (henc : or.encodeOk = true) (hw : ∀ fn, or.writeOk fn = true) :
    (runMain cfg or).2 = true ∧
    Event.warnInvalidBackground ∈ (runMain cfg or).1 ∧
    Event.alphaBlendCall ∈ (runMain cfg or).1 ∧
    Event.encodeCall ∈ (runMain cfg or).1 := by
  have hrm : runMain cfg or = pixelPath cfg or := by
    rw [runMain, if_pos (by simp [hdtp])]
  have hguard : ¬(filenameOut cfg ≠ "" ∧ or.encoderFound = false) := by
    rintro ⟨-, h⟩
    rw [hef] at h
    exact Bool.noConfusion h
  have ha : alphaStage cfg or =
      ([Event.warnInvalidBackground, Event.alphaBlendCall], true) := by
    rw [alphaStage, if_pos (by simp [hab]), hbg, hblend]
  have hes : encoderStage cfg or =
      (([Event.warnInvalidBackground, Event.alphaBlendCall] ++
          [Event.encodeCall]) ++
        (writeLoop or.writeOk (encOutputPaths cfg or)).1 ++
        (optionalStage cfg or).1, (optionalStage cfg or).2) := by
    rw [encoderStage, if_neg hfn, ha]
    simp only [henc, writeLoop_all_ok hw]
    simp
  have hpp : pixelPath cfg or =
      ((List.replicate cfg.numReps
          [Event.pixelDecodeCall, Event.statSample]).flatten ++
        (encoderStage cfg or).1, (encoderStage cfg or).2) := by
    rw [pixelPath, if_neg hguard, pixelLoop_all_ok hpix cfg.numReps 0]
    simp
  rw [hrm, hpp, hes]
  refine ⟨optionalStage_ok cfg or hw, ?_, ?_, ?_⟩ <;> simp

/-- C4 (witness): the amended theorem at `--background "blau"` (clean parse
failure), with every external call succeeding: warning, blend, encode, and a
successful exit. -/
theorem c4_invalid_background_nonfatal_witness :
    (runMain (cfgAlphaBlend "blau") oracleAllOk).2 = true ∧
    Event.warnInvalidBackground ∈
      (runMain (cfgAlphaBlend "blau") oracleAllOk).1 ∧
    Event.alphaBlendCall ∈ (runMain (cfgAlphaBlend "blau") oracleAllOk).1 ∧
    Event.encodeCall ∈ (runMain (cfgAlphaBlend "blau") oracleAllOk).1 :=
  c4_invalid_background_nonfatal (cfgAlphaBlend "blau") oracleAllOk rfl
    (by decide) rfl (by decide) rfl (fun j => rfl) rfl rfl (fun fn => rfl)

end Djxl
